import Mathlib

/-!
Verification development for the texas-engine repository.

The repository contains two Rust engines:
* `poker-ws` (crate `poker_ws`): a WebSocket poker service with a per-room
  actor (`src/poker-ws/src/{lib.rs, game.rs, main.rs}`); embedded below in
  namespace `PokerWs`.
* the root crate `texas_engine` (`src/src/{shared.rs, rules.rs, state.rs}`);
  embedded below in namespace `TexasEngine`.

Conventions of the shallow embedding:
* Rust `u32`/`u64` chip counts are `Nat` (all arithmetic in the sources is
  checked addition / saturating or guarded subtraction; no wrap-around is
  exercised, subtraction only happens where the source guarantees the
  minuend is at least the subtrahend, for which `Nat` truncated subtraction
  agrees).
* `Vec<T>` is `List T`; `Vec::pop` removes the last element.
* Functions that can panic (out-of-bounds indexing) return `Option`.
* `&mut self` methods become functions returning the updated value.
-/

namespace PokerWs

/-- Suit from poker-ws lib.rs: `pub enum Suit { S, H, D, C }`. -/
inductive Suit where
  | S | H | D | C
deriving DecidableEq, Repr

/-- Card from poker-ws lib.rs: `pub struct Card(pub Rank, pub Suit)`.
`Rank` is a fieldless enum with discriminants 2..=14 and `rank_value` is the
cast `rank as u8`; ranks are embedded directly as their numeric values. -/
structure Card where
  rank : Nat
  suit : Suit
deriving DecidableEq, Repr

/-- The thirteen rank values Two..Ace in declaration order of `Rank`. -/
def rankValues : List Nat := [2, 3, 4, 5, 6, 7, 8, 9, 10, 11, 12, 13, 14]

/-- The four suits in declaration order of `Suit`. -/
def suitValues : List Suit := [Suit.S, Suit.H, Suit.D, Suit.C]

/-- `Deck::new`: for each suit, push all thirteen ranks. -/
def Deck.new : List Card :=
  suitValues.flatMap (fun s => rankValues.map (fun r => { rank := r, suit := s }))

/-- `Deck::deal`: `self.0.pop()` — removes and returns the last card. -/
def Deck.deal (d : List Card) : Option Card × List Card :=
  match d.getLast? with
  | none => (none, d)
  | some c => (some c, d.dropLast)

/-- `Deck::deal_n(n)`: `(0..n).filter_map(|_| self.deal()).collect()`.
Returns the collected cards (in deal order) and the remaining deck. -/
def Deck.deal_n (d : List Card) : Nat → List Card × List Card
  | 0 => ([], d)
  | n + 1 =>
    match Deck.deal d with
    | (none, d1) => ([], d1)
    | (some c, d1) =>
      let r := Deck.deal_n d1 n
      (c :: r.1, r.2)

/-- `pub enum Street { Preflop, Flop, Turn, River, Showdown }`. -/
inductive Street where
  | Preflop | Flop | Turn | River | Showdown
deriving DecidableEq, Repr

/-- `pub struct TableState` from lib.rs. -/
structure TableState where
  small_blind : Nat
  big_blind : Nat
  pot : Nat
  street : Option Street
deriving DecidableEq, Repr

/-- `TableState::default()` (all-zero, street `None`). -/
def TableState.default : TableState :=
  { small_blind := 0, big_blind := 0, pot := 0, street := none }

/-- `TableState::start_hand`: zero the pot and set street to Preflop. -/
def TableState.start_hand (st : TableState) : TableState :=
  { st with pot := 0, street := some Street.Preflop }

/-- `pub enum ApplyOutcome { Continue, NextStreet, HandEnded }`. -/
inductive ApplyOutcome where
  | Continue | NextStreet | HandEnded
deriving DecidableEq, Repr

/-- `pub struct Seat` from game.rs. -/
structure Seat where
  user_id : Option String
  stack : Nat
  hole : List Card
  sitting_out : Bool
  has_folded : Bool
  is_allin : Bool
  acted_in_round : Bool
deriving DecidableEq, Repr

/-- `Seat::empty()`. -/
def Seat.empty : Seat :=
  { user_id := none, stack := 0, hole := [], sitting_out := false,
    has_folded := false, is_allin := false, acted_in_round := false }

/-- `pub struct Table` from game.rs. -/
structure Table where
  id : String
  max_seats : Nat
  seats : List Seat
  dealer_idx : Nat
  to_act_idx : Nat
  board : List Card
  state : TableState
  round_bet : Nat
  round_contrib : List Nat
  total_contrib : List Nat
deriving DecidableEq, Repr

/-- `Table::new(id, max_seats, sb, bb)`. -/
def Table.new (id : String) (max_seats sb bb : Nat) : Table :=
  { id := id, max_seats := max_seats,
    seats := List.replicate max_seats Seat.empty,
    dealer_idx := 0, to_act_idx := 0, board := [],
    state := { small_blind := sb, big_blind := bb, pot := 0, street := none },
    round_bet := 0,
    round_contrib := List.replicate max_seats 0,
    total_contrib := List.replicate max_seats 0 }

/-- Read `self.seats[i]`. The sources index only within bounds
(`seats.len() = max_seats` by construction); out-of-range reads yield the
empty seat, which is never occupied and so never satisfies any of the
occupancy predicates the sources test. -/
def Table.seatD (t : Table) (i : Nat) : Seat :=
  t.seats.getD i Seat.empty

/-- Update seat `i` with `f`. -/
def Table.updSeat (t : Table) (i : Nat) (f : Seat → Seat) : Table :=
  { t with seats := t.seats.set i (f (t.seatD i)) }

/-- `Table::sit`: place the user in the first vacant seat. -/
def Table.sit (t : Table) (user_id : String) (stack : Nat) : Table × Bool :=
  match t.seats.findIdx? (fun s => s.user_id.isNone) with
  | some i =>
    let slot : Seat :=
      { user_id := some user_id, stack := stack, hole := [],
        sitting_out := false, has_folded := false, is_allin := false,
        acted_in_round := false }
    ({ t with seats := t.seats.set i slot }, true)
  | none => (t, false)

/-- `Table::active_player_count`: occupied and not sitting out. -/
def Table.active_player_count (t : Table) : Nat :=
  t.seats.countP (fun s => s.user_id.isSome && !s.sitting_out)

/-- Loop body of `Table::next_occupied_from`, iterated `max_seats` times. -/
def Table.nextOccupiedAux (t : Table) (idx : Nat) : Nat → Nat
  | 0 => idx
  | n + 1 =>
    let idx1 := (idx + 1) % t.max_seats
    let s := t.seatD idx1
    if s.user_id.isSome && !s.sitting_out && !s.is_allin && !s.has_folded then idx1
    else t.nextOccupiedAux idx1 n

/-- `Table::next_occupied_from(idx)`: advance cyclically to the next seat that
is occupied, not sitting out, not all-in and not folded; after `max_seats`
fruitless steps return the (wrapped-around) index. -/
def Table.next_occupied_from (t : Table) (idx : Nat) : Nat :=
  t.nextOccupiedAux idx t.max_seats

/-- One dealing pass of `start_hand`: for each seat in order, if occupied and
not sitting out, deal one card onto its hole. -/
def dealPass (seats : List Seat) (deck : List Card) : List Seat × List Card :=
  match seats with
  | [] => ([], deck)
  | s :: rest =>
    if s.user_id.isSome && !s.sitting_out then
      match Deck.deal deck with
      | (some c, d1) =>
        let r := dealPass rest d1
        ({ s with hole := s.hole ++ [c] } :: r.1, r.2)
      | (none, d1) =>
        let r := dealPass rest d1
        (s :: r.1, r.2)
    else
      let r := dealPass rest deck
      (s :: r.1, r.2)

/-- `Table::start_hand(deck)` from game.rs. -/
def Table.start_hand (t : Table) (deck : List Card) : Table × List Card :=
  let t1 : Table :=
    { t with
      state := t.state.start_hand,
      board := [],
      round_bet := 0,
      round_contrib := t.round_contrib.map (fun _ => 0),
      total_contrib := t.total_contrib.map (fun _ => 0),
      seats := t.seats.map (fun s =>
        { s with hole := [], has_folded := false, is_allin := false,
                 acted_in_round := false }) }
  let p1 := dealPass t1.seats deck
  let p2 := dealPass p1.1 p1.2
  let t2 : Table := { t1 with seats := p2.1 }
  let deck2 := p2.2
  let t3 : Table := { t2 with state := { t2.state with street := some Street.Preflop } }
  let sb_idx := t3.next_occupied_from t3.dealer_idx
  let sb_amt := min t3.state.small_blind (t3.seatD sb_idx).stack
  let t4 := t3.updSeat sb_idx (fun s => { s with stack := s.stack - sb_amt })
  let t5 : Table :=
    { t4 with
      round_contrib := t4.round_contrib.set sb_idx (t4.round_contrib.getD sb_idx 0 + sb_amt),
      total_contrib := t4.total_contrib.set sb_idx (t4.total_contrib.getD sb_idx 0 + sb_amt),
      state := { t4.state with pot := t4.state.pot + sb_amt } }
  let bb_idx := t5.next_occupied_from sb_idx
  let bb_amt := min t5.state.big_blind (t5.seatD bb_idx).stack
  let t6 := t5.updSeat bb_idx (fun s => { s with stack := s.stack - bb_amt })
  let t7 : Table :=
    { t6 with
      round_contrib := t6.round_contrib.set bb_idx (t6.round_contrib.getD bb_idx 0 + bb_amt),
      total_contrib := t6.total_contrib.set bb_idx (t6.total_contrib.getD bb_idx 0 + bb_amt),
      state := { t6.state with pot := t6.state.pot + bb_amt } }
  let t8 : Table := { t7 with round_bet := t7.round_contrib.getD bb_idx 0 }
  let t9 : Table := { t8 with to_act_idx := t8.next_occupied_from bb_idx }
  (t9, deck2)

/-- `Table::next_street(deck)` from game.rs. -/
def Table.next_street (t : Table) (deck : List Card) : Table × List Card :=
  let dealt : Table × List Card :=
    match t.state.street with
    | some Street.Preflop =>
      let r := Deck.deal_n deck 3
      ({ t with board := t.board ++ r.1,
                state := { t.state with street := some Street.Flop } }, r.2)
    | some Street.Flop =>
      let r := Deck.deal_n deck 1
      ({ t with board := t.board ++ r.1,
                state := { t.state with street := some Street.Turn } }, r.2)
    | some Street.Turn =>
      let r := Deck.deal_n deck 1
      ({ t with board := t.board ++ r.1,
                state := { t.state with street := some Street.River } }, r.2)
    | some Street.River =>
      ({ t with state := { t.state with street := some Street.Showdown } }, deck)
    | _ => (t, deck)
  let t1 := dealt.1
  let t2 : Table :=
    { t1 with
      round_bet := 0,
      round_contrib := t1.round_contrib.map (fun _ => 0),
      seats := t1.seats.map (fun s => { s with acted_in_round := false }) }
  let t3 : Table :=
    match t2.state.street with
    | some st =>
      if st ≠ Street.Showdown then
        { t2 with to_act_idx := t2.next_occupied_from t2.dealer_idx }
      else t2
    | none => t2
  (t3, dealt.2)

/-- `Table::alive_players`: seats that are occupied, not sitting out, not
folded, and have chips in play (stack, round or total contribution). -/
def Table.alive_players (t : Table) : List Nat :=
  (List.range t.max_seats).filter (fun i =>
    let s := t.seatD i
    s.user_id.isSome && !s.sitting_out && !s.has_folded &&
      (s.stack > 0 || t.round_contrib.getD i 0 > 0 || t.total_contrib.getD i 0 > 0))

/-- `Table::all_matched`: every occupied, in-hand, non-all-in seat has matched
`round_bet` and already acted this round. -/
def Table.all_matched (t : Table) : Bool :=
  (List.range t.max_seats).all (fun i =>
    let s := t.seatD i
    if s.user_id.isNone || s.sitting_out || s.has_folded || s.is_allin then true
    else decide (t.round_contrib.getD i 0 = t.round_bet) && s.acted_in_round)

/-- The per-action mutation step of `apply_action_by_user` (the `match action`
block); errors are returned before any state change, exactly as in the
source. -/
def Table.actionBranch (t : Table) (seat_idx : Nat) (to_call : Nat)
    (action : String) (amount : Option Nat) : Except String Table :=
  if action = "fold" then
    Except.ok (t.updSeat seat_idx (fun s => { s with has_folded := true, acted_in_round := true }))
  else if action = "check" then
    if to_call ≠ 0 then Except.error "cannot check"
    else Except.ok (t.updSeat seat_idx (fun s => { s with acted_in_round := true }))
  else if action = "call" then
    let s := t.seatD seat_idx
    let pay := min to_call s.stack
    let t1 := t.updSeat seat_idx (fun s0 =>
      { s0 with stack := s0.stack - pay, acted_in_round := true,
                is_allin := if s0.stack - pay = 0 then true else s0.is_allin })
    Except.ok
      { t1 with
        round_contrib := t1.round_contrib.set seat_idx (t1.round_contrib.getD seat_idx 0 + pay),
        total_contrib := t1.total_contrib.set seat_idx (t1.total_contrib.getD seat_idx 0 + pay),
        state := { t1.state with pot := t1.state.pot + pay } }
  else if action = "raise" then
    let raise_by := amount.getD 0
    if raise_by < t.state.big_blind then Except.error "min raise"
    else
      let s := t.seatD seat_idx
      let need := to_call + raise_by
      if need = 0 then Except.error "bad raise"
      else
        let pay := min need s.stack
        let t1 := t.updSeat seat_idx (fun s0 =>
          { s0 with stack := s0.stack - pay, acted_in_round := true,
                    is_allin := if s0.stack - pay = 0 then true else s0.is_allin })
        let t2 : Table :=
          { t1 with
            round_contrib := t1.round_contrib.set seat_idx (t1.round_contrib.getD seat_idx 0 + pay),
            total_contrib := t1.total_contrib.set seat_idx (t1.total_contrib.getD seat_idx 0 + pay),
            state := { t1.state with pot := t1.state.pot + pay } }
        let t3 : Table := { t2 with round_bet := t2.round_contrib.getD seat_idx 0 }
        Except.ok
          { t3 with seats := t3.seats.mapIdx (fun i s0 =>
              if i ≠ seat_idx then { s0 with acted_in_round := false } else s0) }
  else Except.error "unknown action"

/-- `Table::apply_action_by_user` from game.rs: validate, apply the action,
then either end the hand (one player left), signal `NextStreet` (round
matched) or advance the turn. Returns the result together with the updated
table; on error the table is the unchanged input. -/
def Table.apply_action_by_user (t : Table) (user_id action : String)
    (amount : Option Nat) : Except String ApplyOutcome × Table :=
  match t.seats.findIdx? (fun s => s.user_id = some user_id) with
  | none => (Except.error "not seated", t)
  | some seat_idx =>
    if t.to_act_idx ≠ seat_idx then (Except.error "not your turn", t)
    else if t.state.street = some Street.Showdown ∨ t.state.street = none then
      (Except.error "hand not active", t)
    else
      let to_call := t.round_bet - t.round_contrib.getD seat_idx 0
      match t.actionBranch seat_idx to_call action amount with
      | Except.error e => (Except.error e, t)
      | Except.ok t1 =>
        let alive := t1.alive_players
        if alive.length ≤ 1 then
          let t2 :=
            match alive.head? with
            | some w => t1.updSeat w (fun s => { s with stack := s.stack + t1.state.pot })
            | none => t1
          let t3 : Table :=
            { t2 with
              state := { t2.state with pot := 0, street := none },
              board := [],
              round_contrib := t2.round_contrib.map (fun _ => 0),
              total_contrib := t2.total_contrib.map (fun _ => 0) }
          let t4 : Table := { t3 with dealer_idx := t3.next_occupied_from t3.dealer_idx }
          (Except.ok ApplyOutcome.HandEnded, t4)
        else if t1.all_matched then (Except.ok ApplyOutcome.NextStreet, t1)
        else (Except.ok ApplyOutcome.Continue,
              { t1 with to_act_idx := t1.next_occupied_from seat_idx })

/-- `pub struct HandRank(pub u8, pub [u8;5])` with its derived `Ord`
(lexicographic: category first, then the five kickers in order). -/
structure HandRank where
  cat : Nat
  kick : List Nat
deriving DecidableEq, Repr

/-- Lexicographic strict comparison of equal-length kicker arrays, as the
derived `Ord` on `[u8;5]` compares them. -/
def kickLt : List Nat → List Nat → Bool
  | a :: l1, b :: l2 =>
    if a < b then true else if b < a then false else kickLt l1 l2
  | _, _ => false

/-- `x < y` under the derived lexicographic `Ord` of `HandRank`. -/
def HandRank.lt (x y : HandRank) : Bool :=
  x.cat < y.cat || (x.cat = y.cat && kickLt x.kick y.kick)

/-- Insert into a descending-sorted list (helper for `sortDesc`). -/
def insertDesc (a : Nat) : List Nat → List Nat
  | [] => [a]
  | b :: rest => if b < a then a :: b :: rest else b :: insertDesc a rest

/-- `ranks.sort_unstable_by(|a,b| b.cmp(a))`: sort descending. Stability is
irrelevant since the elements are bare values. -/
def sortDesc (l : List Nat) : List Nat :=
  l.foldr insertDesc []

/-- Insert into an ascending-sorted list (helper for `sortAsc`). -/
def insertAsc (a : Nat) : List Nat → List Nat
  | [] => [a]
  | b :: rest => if a < b then a :: b :: rest else b :: insertAsc a rest

/-- `sort_unstable()`: sort ascending. -/
def sortAsc (l : List Nat) : List Nat :=
  l.foldr insertAsc []

/-- `Vec::dedup`: remove consecutive duplicates. (When the head equals the
next element, dropping the head is the same as the source's dropping of the
duplicate occurrence.) -/
def dedupConsec : List Nat → List Nat
  | [] => []
  | a :: rest =>
    match rest with
    | [] => [a]
    | b :: _ => if a = b then dedupConsec rest else a :: dedupConsec rest

/-- `ends_with` for lists, as `<[u8]>::ends_with`. -/
def endsWith (l suf : List Nat) : Bool :=
  decide (suf.length ≤ l.length) && decide (l.drop (l.length - suf.length) = suf)

/-- The run scan of `is_straight_sorted`: walk the (descending, deduped) rank
list counting consecutive descents; report a run of length ≥ 5. -/
def seqScan : List Nat → Nat → Bool
  | a :: b :: rest, seq =>
    if a = b + 1 then
      if seq + 1 ≥ 5 then true else seqScan (b :: rest) (seq + 1)
    else seqScan (b :: rest) 1
  | _, _ => false

/-- `is_straight_sorted(ranks)` from game.rs: `ranks` is sorted descending.
Dedups (consecutive), requires ≥ 5 distinct ranks, scans for a descending
run of 5; then sorts `uniq` ascending and tests
`uniq.ends_with(&[5,4,3,2]) && ranks.contains(&14)` for the wheel. (After the
ascending sort, `ends_with([5,4,3,2])` can never hold; the embedding mirrors
the source as written.) -/
def is_straight_sorted (ranks : List Nat) : Bool :=
  let uniq := dedupConsec ranks
  if uniq.length < 5 then false
  else if seqScan uniq 1 then true
  else
    let uniq2 := sortAsc uniq
    endsWith uniq2 [5, 4, 3, 2] && ranks.contains 14

/-- `normalize_kickers`: the first five entries (the list always has 5). -/
def normalize_kickers (r : List Nat) : List Nat :=
  [r.getD 0 0, r.getD 1 0, r.getD 2 0, r.getD 3 0, r.getD 4 0]

/-- `counts` array of `eval5`, as a function: occurrences of value `v`. -/
def rankCount (ranks : List Nat) (v : Nat) : Nat :=
  ranks.countP (fun r => r = v)

/-- Scan rank values `v, v-1, ..., 2` for the first satisfying `p`
(the `for v in (2..=14).rev()` loops). -/
def scanDesc (p : Nat → Bool) : Nat → Option Nat
  | 0 => none
  | 1 => none
  | v + 2 => if p (v + 2) then some (v + 2) else scanDesc p (v + 1)

/-- `find_value_with_count`: highest value whose count equals `n`. -/
def find_value_with_count (ranks : List Nat) (n : Nat) : Option Nat :=
  scanDesc (fun v => rankCount ranks v = n) 14

/-- `find_second_pair`: highest value ≠ `exclude` with count ≥ 2. -/
def find_second_pair (ranks : List Nat) (exclude : Nat) : Option Nat :=
  scanDesc (fun v => v ≠ exclude && rankCount ranks v ≥ 2) 14

/-- `find_n_of_a_kind`: value with count `n` plus the best other card
(`unwrap_or(2)` when no other card exists). -/
def find_n_of_a_kind (ranks : List Nat) (n : Nat) : Option (Nat × Nat) :=
  match find_value_with_count ranks n with
  | some v => some (v, ((ranks.find? (fun x => x ≠ v)).getD 2))
  | none => none

/-- `find_three`: trips value plus the two best kickers. -/
def find_three (ranks : List Nat) : Option (Nat × Nat × Nat) :=
  match find_value_with_count ranks 3 with
  | some v =>
    let ks := (sortDesc (ranks.filter (fun x => x ≠ v))).take 2
    some (v, ks.getD 0 0, ks.getD 1 0)
  | none => none

/-- `find_pair`: pair value plus the three best kickers. -/
def find_pair (ranks : List Nat) : Option (Nat × Nat × Nat × Nat) :=
  match find_value_with_count ranks 2 with
  | some v =>
    let ks := (sortDesc (ranks.filter (fun x => x ≠ v))).take 3
    some (v, ks.getD 0 0, ks.getD 1 0, ks.getD 2 0)
  | none => none

/-- The pair-collection loop of `find_two_pair`: values from 14 down to 2 with
count ≥ 2, stopping after two. -/
def collectPairs (ranks : List Nat) : Nat → List Nat → List Nat
  | 0, acc => acc
  | 1, acc => acc
  | v + 2, acc =>
    if rankCount ranks (v + 2) ≥ 2 then
      let acc1 := acc ++ [v + 2]
      if acc1.length = 2 then acc1 else collectPairs ranks (v + 1) acc1
    else collectPairs ranks (v + 1) acc

/-- `find_two_pair`: two highest pair values plus the best remaining card. -/
def find_two_pair (ranks : List Nat) : Option (Nat × Nat × Nat) :=
  let pairs := collectPairs ranks 14 []
  if pairs.length = 2 then
    let hp := pairs.getD 0 0
    let lp := pairs.getD 1 0
    let kicker := (ranks.find? (fun x => x ≠ hp && x ≠ lp)).getD 2
    some (hp, lp, kicker)
  else none

/-- `eval5(cards)` from game.rs on the five cards. -/
def eval5 (c0 c1 c2 c3 c4 : Card) : HandRank :=
  let cards := [c0, c1, c2, c3, c4]
  let ranks := sortDesc (cards.map (fun c => c.rank))
  let is_flush := cards.all (fun c => c.suit = c0.suit)
  let is_straight := is_straight_sorted ranks
  if is_flush && is_straight then { cat := 8, kick := normalize_kickers ranks }
  else
    match find_n_of_a_kind ranks 4 with
    | some (quad, kicker) => { cat := 7, kick := [quad, quad, quad, quad, kicker] }
    | none =>
      let fullhouse :=
        match find_value_with_count ranks 3 with
        | some trip =>
          match find_second_pair ranks trip with
          | some pair => some ({ cat := 6, kick := [trip, trip, trip, pair, pair] } : HandRank)
          | none => none
        | none => none
      match fullhouse with
      | some hr => hr
      | none =>
        if is_flush then { cat := 5, kick := normalize_kickers ranks }
        else if is_straight then { cat := 4, kick := normalize_kickers ranks }
        else
          match find_three ranks with
          | some (trip, k1, k2) => { cat := 3, kick := [trip, trip, trip, k1, k2] }
          | none =>
            match find_two_pair ranks with
            | some (hp, lp, kicker) => { cat := 2, kick := [hp, hp, lp, lp, kicker] }
            | none =>
              match find_pair ranks with
              | some (p, k1, k2, k3) => { cat := 1, kick := [p, p, k1, k2, k3] }
              | none => { cat := 0, kick := normalize_kickers ranks }

/-- The tail-reset loop of `combinations`:
`for j in i+1..k { idx[j] = idx[j-1] + 1 }`. -/
def resetTailAux (idx : List Nat) : Nat → Nat → List Nat
  | _, 0 => idx
  | j, steps + 1 => resetTailAux (idx.set j (idx.getD (j - 1) 0 + 1)) (j + 1) steps

/-- The advance step of `combinations`: scan `i = k-1, ..., 0` for the first
position not at its maximum `i + n - k`; increment it and reset the tail.
If every position is at its maximum, return `idx` unchanged. -/
def advanceFrom (idx : List Nat) (n k : Nat) : Nat → List Nat
  | 0 => idx
  | i + 1 =>
    let v := idx.getD i 0
    if v ≠ i + n - k then
      resetTailAux (idx.set i (v + 1)) (i + 1) (k - (i + 1))
    else advanceFrom idx n k i

/-- The main loop of `combinations`: push the current selection (panicking —
`none` — on an out-of-bounds index), advance, and stop once `idx[0] = n - k`.
Note the source checks the break condition after advancing, so the final
combination `[n-k, ..., n-1]` is pushed only in the degenerate case `n = k`.
`fuel` dominates the iteration count (`C(n,k)+1` always suffices). -/
def combinationsLoop (items : List Nat) (k n : Nat) :
    List Nat → Nat → Option (List (List Nat))
  | _, 0 => none
  | idx, fuel + 1 =>
    match idx.mapM (fun i => items.get? i) with
    | none => none
    | some row =>
      let idx2 := advanceFrom idx n k k
      if idx2.getD 0 0 = n - k then some [row]
      else (combinationsLoop items k n idx2 fuel).map (fun res => row :: res)

/-- `combinations(items, k)` from game.rs. `none` models the panic from
indexing past the end of `items` (which happens immediately when
`items.len() < k`). -/
def combinations (items : List Nat) (k : Nat) : Option (List (List Nat)) :=
  let n := items.length
  combinationsLoop items k n (List.range k) (Nat.choose n k + 1)

/-- One comparison step of `best_rank`: look up the five selected cards
(`cards[c[j]]`, panicking — `none` — when out of bounds), evaluate, keep the
larger rank. -/
def bestStep (cards : List Card) (best : HandRank) (c : List Nat) :
    Option HandRank :=
  match c.mapM (fun i => cards.get? i) with
  | some [a, b, d, e, f] =>
    let r := eval5 a b d e f
    some (if HandRank.lt best r then r else best)
  | _ => none

/-- `best_rank(hole, board)` from game.rs: enumerate the index combinations of
size 5 and take the maximal `eval5`. `none` models a panic (fewer than 5
cards). -/
def best_rank (hole board : List Card) : Option HandRank :=
  let cards := hole ++ board
  let n := cards.length
  match combinations (List.range n) 5 with
  | none => none
  | some combs => combs.foldlM (bestStep cards) { cat := 0, kick := [0, 0, 0, 0, 0] }

/-- One layer step of the side-pot loop: for each index with a positive
remainder, add `layer` to the amount and subtract `layer`. Returns the layer
amount and the new remainders. -/
def layerStep (layer : Nat) : List Nat → Nat × List Nat
  | [] => (0, [])
  | c :: rest =>
    let r := layerStep layer rest
    if c > 0 then (r.1 + layer, (c - layer) :: r.2) else (r.1, c :: r.2)

/-- The eligibility list recomputed on every layer of
`showdown_and_payout`: seats (within `remaining`'s index range) that are
occupied, not folded, not sitting out, and have `total_contrib > 0`. Note the
source tests the whole-hand contribution, not the per-layer remainder, so
every layer gets the same eligibility list. -/
def Table.payoutEligible (t : Table) (len : Nat) : List Nat :=
  (List.range len).filter (fun i =>
    (t.seatD i).user_id.isSome && !(t.seatD i).has_folded &&
      !(t.seatD i).sitting_out && t.total_contrib.getD i 0 > 0)

/-- The side-pot construction loop of `showdown_and_payout`: repeatedly take
the smallest positive remainder as the layer height and emit
`(amount, eligible)`. `fuel` dominates the number of layers (the number of
distinct positive contributions, at most the list length). -/
def Table.sidePotsAux (t : Table) : List Nat → Nat → List (Nat × List Nat)
  | _, 0 => []
  | remaining, fuel + 1 =>
    match (remaining.filter (fun c => c > 0)).min? with
    | none => []
    | some layer =>
      let step := layerStep layer remaining
      (step.1, t.payoutEligible remaining.length) :: t.sidePotsAux step.2 fuel

/-- The side pots of `showdown_and_payout`, from `total_contrib`. -/
def Table.sidePots (t : Table) : List (Nat × List Nat) :=
  t.sidePotsAux t.total_contrib t.total_contrib.length

/-- The rank evaluation pass of `showdown_and_payout`: `Some(best_rank(..))`
for every occupied, non-folded seat. The outer `none` models a panic inside
`best_rank` (fewer than five cards available to some evaluated seat). -/
def Table.showdownRanks (t : Table) : Option (List (Option HandRank)) :=
  (List.range t.max_seats).mapM (fun i =>
    if (t.seatD i).user_id.isSome && !(t.seatD i).has_folded then
      (best_rank (t.seatD i).hole t.board).map (fun r => some r)
    else some none)

/-- One step of the winner-selection loop of a pot layer. -/
def winnerStep (ranks : List (Option HandRank))
    (acc : Option HandRank × List Nat) (i : Nat) : Option HandRank × List Nat :=
  match ranks.getD i none with
  | none => acc
  | some r =>
    match acc.1 with
    | none => (some r, [i])
    | some b =>
      if HandRank.lt b r then (some r, [i])
      else if r = b then (acc.1, acc.2 ++ [i])
      else acc

/-- The winner-selection loop of one pot layer: fold over the eligible seats
keeping the best rank seen and the (ascending) list of seats achieving it. -/
def pickWinners (ranks : List (Option HandRank)) (eligible : List Nat) :
    Option HandRank × List Nat :=
  eligible.foldl (winnerStep ranks) (none, [])

/-- Distribution of one pot layer: skip empty layers, pick the winners, give
each `amount / |winners|`, then one extra chip to the first
`amount mod |winners|` winners in list order. -/
def distributeLayer (ranks : List (Option HandRank)) (seats : List Seat)
    (pot : Nat × List Nat) : List Seat :=
  let amount := pot.1
  let eligible := pot.2
  if amount = 0 || eligible.isEmpty then seats
  else
    let w := pickWinners ranks eligible
    let winners := w.2
    if winners.isEmpty then seats
    else
      let share := amount / winners.length
      let remainder := amount - share * winners.length
      let seats1 := winners.foldl
        (fun acc i => acc.set i (let s := acc.getD i Seat.empty; { s with stack := s.stack + share }))
        seats
      (winners.take remainder).foldl
        (fun acc i => acc.set i (let s := acc.getD i Seat.empty; { s with stack := s.stack + 1 }))
        seats1

/-- `Table::showdown_and_payout` from game.rs: build side pots, evaluate
ranks, distribute each layer, then clear the hand and advance the dealer.
`none` models a panic during rank evaluation. -/
def Table.showdown_and_payout (t : Table) : Option Table :=
  match t.showdownRanks with
  | none => none
  | some ranks =>
    let pots := t.sidePots
    let seats2 := pots.foldl (distributeLayer ranks) t.seats
    let t1 : Table :=
      { t with
        seats := seats2,
        state := { t.state with pot := 0, street := none },
        board := [],
        round_contrib := t.round_contrib.map (fun _ => 0),
        total_contrib := t.total_contrib.map (fun _ => 0) }
    some { t1 with dealer_idx := t1.next_occupied_from t1.dealer_idx }

end PokerWs

namespace TexasEngine

/-- Suit from shared.rs: Hearts, Diamonds, Clubs, Spades. -/
inductive ESuit where
  | Hearts | Diamonds | Clubs | Spades
deriving DecidableEq, Repr

/-- Card from shared.rs. `Rank` is embedded as its `value()` (2..=14); the
derived `Ord` on `Rank` coincides with the numeric order of the values. -/
structure ECard where
  suit : ESuit
  rank : Nat
deriving DecidableEq, Repr

/-- `Rank::from_value`: identity on 2..=14, and 1 also maps to Ace (14).
(Values outside 1..=14 panic in the source and are never produced by
`check_straight`, the only caller.) -/
def Rank.from_value (v : Nat) : Nat :=
  if v = 1 then 14 else v

/-- `GameStage` from shared.rs. -/
inductive GameStage where
  | PreFlop | Flop | Turn | River | Showdown
deriving DecidableEq, Repr

/-- `PlayerAction` from shared.rs. -/
inductive EPlayerAction where
  | Fold
  | Check
  | Bet (amount : Nat)
  | Raise (amount : Nat)
  | Call
deriving DecidableEq, Repr

/-- `GameError` from shared.rs. -/
inductive GameError where
  | InvalidAction | InsufficientChips | StageError | PlayerNotFound
deriving DecidableEq, Repr

/-- `Player` from shared.rs. The provided shared.rs lists the fields up to
`has_acted`; state.rs additionally reads and writes
`player.total_bet_in_hand` (chips committed over the whole hand), so that
field — missing from the provided declaration — is included here. -/
structure EPlayer where
  id : String
  name : String
  chips : Nat
  cards : Option (ECard × ECard)
  is_active : Bool
  current_bet : Nat
  has_acted : Bool
  total_bet_in_hand : Nat
deriving DecidableEq, Repr

instance : Inhabited EPlayer :=
  ⟨{ id := "", name := "", chips := 0, cards := none, is_active := false,
     current_bet := 0, has_acted := false, total_bet_in_hand := 0 }⟩

/-- `GameState` from shared.rs. -/
structure GameState where
  players : List EPlayer
  community_cards : List ECard
  pot : Nat
  current_player_index : Nat
  stage : GameStage
  dealer_position : Nat
  small_blind : Nat
  big_blind : Nat
deriving DecidableEq, Repr

/-- Modelled from the spec: the declaration of `HandRank` (re-exported as
`rules::HandRank`) is not among the provided sources; §4.2 of the
specification fixes the category order "HighCard(0), OnePair(1), TwoPair(2),
Trips(3), Straight(4), Flush(5), FullHouse(6), Quads(7), StraightFlush(8)",
and rules.rs additionally uses a `RoyalFlush` above `StraightFlush`.
Categories are embedded as these numeric values, compared numerically as the
derived `Ord` compares enum discriminants. -/
def HandRankVal : Type := Nat

namespace HandRankName

def HighCard : Nat := 0
def OnePair : Nat := 1
def TwoPair : Nat := 2
def ThreeOfAKind : Nat := 3
def Straight : Nat := 4
def Flush : Nat := 5
def FullHouse : Nat := 6
def FourOfAKind : Nat := 7
def StraightFlush : Nat := 8
def RoyalFlush : Nat := 9

end HandRankName

/-- Modelled from the spec: `HandEvaluation` (rank plus kicker list) as used
throughout rules.rs and state.rs; its declaration is not among the provided
sources. -/
structure HandEvaluation where
  rank : Nat
  kickers : List Nat
deriving DecidableEq, Repr

/-- `compare_kickers` from rules.rs: lexicographic over `zip` (stops at the
shorter list, equal if the common prefix is equal). -/
def compare_kickers : List Nat → List Nat → Ordering
  | a :: r1, b :: r2 =>
    if a < b then Ordering.lt
    else if b < a then Ordering.gt
    else compare_kickers r1 r2
  | _, _ => Ordering.eq

/-- An association list standing in for a `HashMap` built by repeated
`*map.entry(k).or_insert(0) += 1`: counts keyed in first-insertion order.
Rust's `HashMap` iteration order is unspecified; the embedding fixes
first-insertion order, and every theorem below evaluates the evaluator only
on inputs whose result does not depend on the iteration order. -/
def insertCount {α : Type} [DecidableEq α] :
    List (α × Nat) → α → List (α × Nat)
  | [], r => [(r, 1)]
  | (a, n) :: rest, r =>
    if a = r then (a, n + 1) :: rest else (a, n) :: insertCount rest r

/-- `rank_counts`: occurrences of each rank, in first-insertion order. -/
def rankCounts (cards : List ECard) : List (Nat × Nat) :=
  cards.foldl (fun acc c => insertCount acc c.rank) []

/-- `suit_counts`: occurrences of each suit, in first-insertion order. -/
def suitCounts (cards : List ECard) : List (ESuit × Nat) :=
  cards.foldl (fun acc c => insertCount acc c.suit) []

/-- Insert into an ascending-sorted list (helper for `sortAscE`). -/
def insertAscE (a : Nat) : List Nat → List Nat
  | [] => [a]
  | b :: rest => if a < b then a :: b :: rest else b :: insertAscE a rest

/-- Ascending sort of rank values. -/
def sortAscE (l : List Nat) : List Nat :=
  l.foldr insertAscE []

/-- Descending sort of rank values (`sort_by(|a, b| b.cmp(a))`). -/
def sortDescE (l : List Nat) : List Nat :=
  (sortAscE l).reverse

/-- The consecutive-run scan of `check_straight` over the ascending distinct
values: returns the final `max_value` (0 when no run of ≥ 5 was seen). -/
def straightScan : List Nat → Nat → Nat → Nat
  | prev :: v :: rest, consecutive, max_value =>
    if v = prev + 1 then
      let c1 := consecutive + 1
      straightScan (v :: rest) c1 (if c1 ≥ 5 then v else max_value)
    else straightScan (v :: rest) 1 max_value
  | _, _, max_value => max_value

/-- `check_straight(cards)` from rules.rs: collect the distinct rank values,
add 1 when an Ace (14) is present, sort ascending, scan for a run of ≥ 5;
return the top of the highest run (via `Rank::from_value`), else
`(false, Two)`. -/
def check_straight (cards : List ECard) : Bool × Nat :=
  let values0 := (cards.map (fun c => c.rank)).dedup
  let values := if values0.contains 14 then values0 ++ [1] else values0
  let sorted_values := sortAscE values
  let max_value := straightScan sorted_values 1 0
  if max_value > 0 then (true, Rank.from_value max_value) else (false, 2)

/-- The one-pair / high-card tail of `evaluate_five_cards` (reached when no
higher category matched). -/
def evalPairDown (cards : List ECard) (rc : List (Nat × Nat)) : HandEvaluation :=
  match (rc.find? (fun p => p.2 = 2)).map (fun p => p.1) with
  | some pair_rank =>
    let ks := (sortDescE ((rc.filter (fun p => p.1 ≠ pair_rank)).map (fun p => p.1))).take 3
    { rank := HandRankName.OnePair, kickers := pair_rank :: ks }
  | none =>
    { rank := HandRankName.HighCard,
      kickers := sortDescE (cards.map (fun c => c.rank)) }

/-- The two-pair check of `evaluate_five_cards`. -/
def evalTwoPairDown (cards : List ECard) (rc : List (Nat × Nat)) : HandEvaluation :=
  let pairs := (rc.filter (fun p => p.2 = 2)).map (fun p => p.1)
  if pairs.length ≥ 2 then
    let sorted_pairs := sortDescE pairs
    let high_pair := sorted_pairs.getD 0 0
    let low_pair := sorted_pairs.getD 1 0
    let kicker := (((rc.filter (fun p => p.1 ≠ high_pair && p.1 ≠ low_pair)).map (fun p => p.1)).max?).getD 0
    { rank := HandRankName.TwoPair, kickers := [high_pair, low_pair, kicker] }
  else evalPairDown cards rc

/-- The three-of-a-kind check of `evaluate_five_cards`. -/
def evalTripsDown (cards : List ECard) (rc : List (Nat × Nat)) : HandEvaluation :=
  match (rc.find? (fun p => p.2 = 3)).map (fun p => p.1) with
  | some three_rank =>
    let ks := (sortDescE ((rc.filter (fun p => p.1 ≠ three_rank)).map (fun p => p.1))).take 2
    { rank := HandRankName.ThreeOfAKind, kickers := three_rank :: ks }
  | none => evalTwoPairDown cards rc

/-- The flush / straight checks of `evaluate_five_cards`. -/
def evalFlushDown (cards : List ECard) (rc : List (Nat × Nat))
    (is_flush is_straight : Bool) (straight_high : Nat) : HandEvaluation :=
  if is_flush then
    { rank := HandRankName.Flush, kickers := sortDescE (cards.map (fun c => c.rank)) }
  else if is_straight then
    { rank := HandRankName.Straight, kickers := [straight_high] }
  else evalTripsDown cards rc

/-- The full-house check of `evaluate_five_cards` (`None` falls through). -/
def evalFullHouse (rc : List (Nat × Nat)) : Option HandEvaluation :=
  match (rc.find? (fun p => p.2 = 3)).map (fun p => p.1) with
  | some three_rank =>
    match ((rc.filter (fun p => p.1 ≠ three_rank)).find? (fun p => p.2 ≥ 2)).map (fun p => p.1) with
    | some pair_rank =>
      some { rank := HandRankName.FullHouse, kickers := [three_rank, pair_rank] }
    | none => none
  | none => none

/-- `evaluate_five_cards(cards)` from rules.rs (on exactly five cards): the
checks run in the source's order; the later checks are split into the
`eval...Down` helpers above. -/
def evaluate_five_cards (cards : List ECard) : HandEvaluation :=
  let rc := rankCounts cards
  let sc := suitCounts cards
  let is_flush := sc.any (fun p => p.2 = 5)
  let straight := check_straight cards
  let is_straight := straight.1
  let straight_high := straight.2
  if is_flush && is_straight && straight_high = 14 then
    { rank := HandRankName.RoyalFlush, kickers := [14] }
  else if is_flush && is_straight then
    { rank := HandRankName.StraightFlush, kickers := [straight_high] }
  else
    match (rc.find? (fun p => p.2 = 4)).map (fun p => p.1) with
    | some quad_rank =>
      let kicker := (((rc.filter (fun p => p.1 ≠ quad_rank)).map (fun p => p.1)).max?).getD 0
      { rank := HandRankName.FourOfAKind, kickers := [quad_rank, kicker] }
    | none =>
      match evalFullHouse rc with
      | some hr => hr
      | none => evalFlushDown cards rc is_flush is_straight straight_high

/-- `itertools::combinations(5)` over list elements, in the lexicographic
position order itertools produces. -/
def combosLex {α : Type} : List α → Nat → List (List α)
  | _, 0 => [[]]
  | [], _ + 1 => []
  | x :: rest, k + 1 =>
    ((combosLex rest k).map (fun c => x :: c)) ++ combosLex rest (k + 1)

/-- The strictly-better test of `find_best_five_card_hand`. -/
def evalBetter (e best : HandEvaluation) : Bool :=
  decide (e.rank > best.rank) ||
    (decide (e.rank = best.rank) &&
      decide (compare_kickers e.kickers best.kickers = Ordering.gt))

/-- `find_best_five_card_hand(cards)` from rules.rs: all cards when ≤ 5,
else start from the first five and keep any strictly better 5-combination. -/
def find_best_five_card_hand (cards : List ECard) : List ECard :=
  if cards.length ≤ 5 then cards
  else
    let first5 := cards.take 5
    let start := (first5, evaluate_five_cards first5)
    let result := (combosLex cards 5).foldl
      (fun acc hand =>
        let evaluation := evaluate_five_cards hand
        if evalBetter evaluation acc.2 then (hand, evaluation) else acc)
      start
    result.1

/-- `evaluate_hand(player_cards, community_cards)` from rules.rs. -/
def evaluate_hand (player_cards : ECard × ECard) (community_cards : List ECard) :
    HandEvaluation :=
  let all_cards := player_cards.1 :: player_cards.2 :: community_cards
  evaluate_five_cards (find_best_five_card_hand all_cards)

/-- `TexasHoldem` from state.rs: game state plus deck. -/
structure TexasHoldem where
  state : GameState
  deck : List ECard
deriving DecidableEq, Repr

/-- `SidePot` from state.rs. -/
structure SidePot where
  amount : Nat
  eligible_players : List Nat
deriving DecidableEq, Repr

/-- Stable insertion by bet amount (ties keep earlier elements first), as
`sort_by_key` guarantees. -/
def insertByBet (x : Nat × Nat) : List (Nat × Nat) → List (Nat × Nat)
  | [] => [x]
  | y :: rest => if y.2 ≤ x.2 then y :: insertByBet x rest else x :: y :: rest

/-- `bets.sort_by_key(|(_, bet)| *bet)`: stable ascending sort by bet. -/
def sortBetsStable (l : List (Nat × Nat)) : List (Nat × Nat) :=
  l.foldl (fun acc x => insertByBet x acc) []

/-- The layer loop of `compute_side_pots`: walk the sorted bets, opening a new
layer whenever the bet exceeds `last_bet`. -/
def sidePotLoop (bets : List (Nat × Nat)) : List (Nat × Nat) → Nat → List SidePot
  | [], _ => []
  | (_, bet) :: rest, last_bet =>
    if bet > last_bet then
      let increment := bet - last_bet
      let eligible_players := (bets.filter (fun p => p.2 ≥ bet)).map (fun p => p.1)
      let amount := increment * eligible_players.length
      { amount := amount, eligible_players := eligible_players } ::
        sidePotLoop bets rest bet
    else sidePotLoop bets rest last_bet

/-- `TexasHoldem::compute_side_pots` from state.rs. -/
def TexasHoldem.compute_side_pots (g : TexasHoldem) : List SidePot :=
  let bets := sortBetsStable
    (g.state.players.enum.map (fun p => (p.1, p.2.total_bet_in_hand)))
  sidePotLoop bets bets 0

/-- `TexasHoldem::evaluate_all_hands` from state.rs. -/
def TexasHoldem.evaluate_all_hands (g : TexasHoldem) : List (Option HandEvaluation) :=
  g.state.players.map (fun p =>
    match p.cards with
    | some cs => if p.is_active then some (evaluate_hand cs g.state.community_cards) else none
    | none => none)

/-- One eligible-player step of the winner loop in `resolve_showdown`:
matching the source, ties on rank compare kickers; only strictly better
evaluations replace, equal ones join. -/
def showdownStep (evaluations : List (Option HandEvaluation))
    (acc : Option HandEvaluation × List Nat) (player_index : Nat) :
    Option HandEvaluation × List Nat :=
  match evaluations.getD player_index none with
  | none => acc
  | some e =>
    match acc.1 with
    | none => (some e, [player_index])
    | some current_best =>
      if e.rank > current_best.rank then (some e, [player_index])
      else if e.rank = current_best.rank then
        if compare_kickers e.kickers current_best.kickers = Ordering.eq then
          (acc.1, acc.2 ++ [player_index])
        else if compare_kickers e.kickers current_best.kickers = Ordering.gt then
          (some e, [player_index])
        else acc
      else acc

/-- `TexasHoldem::resolve_showdown` from state.rs: for each side pot pick the
winners among its eligible players and credit each with
`amount / winners.len()`. Note the integer-division remainder is not
distributed to anyone. -/
def TexasHoldem.resolve_showdown (g : TexasHoldem) : TexasHoldem :=
  let side_pots := g.compute_side_pots
  let evaluations := g.evaluate_all_hands
  let winnings := side_pots.foldl
    (fun (acc : List Nat) pot =>
      let w := pot.eligible_players.foldl (showdownStep evaluations) (none, [])
      let winners := w.2
      if winners.isEmpty then acc
      else
        let share := pot.amount / winners.length
        winners.foldl (fun acc2 i => acc2.set i (acc2.getD i 0 + share)) acc)
    (List.replicate g.state.players.length 0)
  let players2 := (g.state.players.zip winnings).map
    (fun pw => { pw.1 with chips := pw.1.chips + pw.2 })
  { g with state := { g.state with players := players2 } }

/-- `TexasHoldem::current_bet_round`: the highest current-round bet. -/
def TexasHoldem.current_bet_round (g : TexasHoldem) : Nat :=
  (g.state.players.map (fun p => p.current_bet)).foldr max 0

/-- `TexasHoldem::reset_has_acted`. -/
def TexasHoldem.reset_has_acted (g : TexasHoldem) : TexasHoldem :=
  let players2 := g.state.players.map (fun p => { p with has_acted := false })
  { g with state := { g.state with players := players2 } }

/-- The search loop of `advance_to_next_player`, with `fuel` the remaining
number of probes (the source wraps after `players.len()` probes back to
`start_index` and stops). -/
def advanceLoop (players : List EPlayer) (len start : Nat) : Nat → Nat → Nat
  | next, 0 => next
  | next, fuel + 1 =>
    let p := players.getD next default
    if p.is_active && p.chips > 0 then next
    else
      let n2 := (next + 1) % len
      if n2 = start then n2 else advanceLoop players len start n2 fuel

/-- `TexasHoldem::advance_to_next_player` from state.rs. -/
def TexasHoldem.advance_to_next_player (g : TexasHoldem) : TexasHoldem :=
  let len := g.state.players.length
  let next := (g.state.current_player_index + 1) % len
  let idx := advanceLoop g.state.players len next next len
  { g with state := { g.state with current_player_index := idx } }

/-- Update player `i` with `f`. -/
def TexasHoldem.updPlayer (g : TexasHoldem) (i : Nat) (f : EPlayer → EPlayer) :
    TexasHoldem :=
  let players2 := g.state.players.set i (f (g.state.players.getD i default))
  { g with state := { g.state with players := players2 } }

/-- `TexasHoldem::post_blinds` from state.rs. -/
def TexasHoldem.post_blinds (g : TexasHoldem) : TexasHoldem :=
  let len := g.state.players.length
  let small_blind_pos := (g.state.dealer_position + 1) % len
  let big_blind_pos := (g.state.dealer_position + 2) % len
  let g1 :=
    match g.state.players.get? small_blind_pos with
    | none => g
    | some p =>
      let amount := min p.chips g.state.small_blind
      let g2 := g.updPlayer small_blind_pos (fun q =>
        { q with chips := q.chips - amount, current_bet := amount,
                 total_bet_in_hand := q.total_bet_in_hand + amount })
      { g2 with state := { g2.state with pot := g2.state.pot + amount } }
  match g1.state.players.get? big_blind_pos with
  | none => g1
  | some p =>
    let amount := min p.chips g1.state.big_blind
    let g2 := g1.updPlayer big_blind_pos (fun q =>
      { q with chips := q.chips - amount, current_bet := amount,
               total_bet_in_hand := q.total_bet_in_hand + amount })
    { g2 with state := { g2.state with pot := g2.state.pot + amount } }

instance : Inhabited ECard := ⟨{ suit := ESuit.Hearts, rank := 2 }⟩

/-- Three successive `deck.pop().unwrap()` calls (the flop deal of
`advance_to_next_stage`, whose caller has checked `len ≥ 3`). -/
def deal3 (deck : List ECard) : List ECard × List ECard :=
  let c1 := (deck.getLast?).getD default
  let d1 := deck.dropLast
  let c2 := (d1.getLast?).getD default
  let d2 := d1.dropLast
  let c3 := (d2.getLast?).getD default
  ([c1, c2, c3], d2.dropLast)

/-- `TexasHoldem::deal_cards` from state.rs: give each player two cards from
the back of the deck while at least two remain. -/
def dealCardsLoop (deck : List ECard) : List EPlayer → List EPlayer × List ECard
  | [] => ([], deck)
  | p :: rest =>
    if deck.length ≥ 2 then
      let card1 := (deck.getLast?).getD default
      let d1 := deck.dropLast
      let card2 := (d1.getLast?).getD default
      let d2 := d1.dropLast
      let r := dealCardsLoop d2 rest
      ({ p with cards := some (card1, card2) } :: r.1, r.2)
    else
      let r := dealCardsLoop deck rest
      (p :: r.1, r.2)

/-- `TexasHoldem::setup_new_hand` from state.rs. -/
def TexasHoldem.setup_new_hand (g : TexasHoldem) : TexasHoldem :=
  let g1 : TexasHoldem :=
    { g with state :=
      { g.state with
        community_cards := [],
        pot := 0,
        stage := GameStage.PreFlop,
        players := g.state.players.map (fun p =>
          { p with cards := none, is_active := true, has_acted := false,
                   current_bet := 0, total_bet_in_hand := 0 }) } }
  let dealt := dealCardsLoop g1.deck g1.state.players
  let g2 : TexasHoldem :=
    { g1 with deck := dealt.2, state := { g1.state with players := dealt.1 } }
  let g3 : TexasHoldem :=
    { g2 with state := { g2.state with current_player_index :=
        (g2.state.dealer_position + 3) % g2.state.players.length } }
  g3.post_blinds

/-- `TexasHoldem::advance_to_next_stage` from state.rs. Note the round-bet /
`has_acted` reset happens before the stage match, so the `StageError`
returns leave that reset applied. -/
def TexasHoldem.advance_to_next_stage (g : TexasHoldem) :
    TexasHoldem × Option GameError :=
  let players1 := g.state.players.map
    (fun p => { p with current_bet := 0, has_acted := false })
  let g1 : TexasHoldem :=
    { g with state := { g.state with players := players1 } }
  let staged : TexasHoldem × Option GameError :=
    match g1.state.stage with
    | GameStage.PreFlop =>
      if g1.deck.length < 3 then (g1, some GameError.StageError)
      else
        let d1 := deal3 g1.deck
        let cc := g1.state.community_cards ++ d1.1
        let st2 := { g1.state with community_cards := cc, stage := GameStage.Flop }
        ({ g1 with deck := d1.2, state := st2 }, none)
    | GameStage.Flop =>
      if g1.deck.isEmpty then (g1, some GameError.StageError)
      else
        let c := (g1.deck.getLast?).getD default
        let cc := g1.state.community_cards ++ [c]
        let st2 := { g1.state with community_cards := cc, stage := GameStage.Turn }
        ({ g1 with deck := g1.deck.dropLast, state := st2 }, none)
    | GameStage.Turn =>
      if g1.deck.isEmpty then (g1, some GameError.StageError)
      else
        let c := (g1.deck.getLast?).getD default
        let cc := g1.state.community_cards ++ [c]
        let st2 := { g1.state with community_cards := cc, stage := GameStage.River }
        ({ g1 with deck := g1.deck.dropLast, state := st2 }, none)
    | GameStage.River =>
      ({ g1 with state := { g1.state with stage := GameStage.Showdown } }, none)
    | GameStage.Showdown =>
      (g1.resolve_showdown.setup_new_hand, none)
  match staged.2 with
  | some e => (staged.1, some e)
  | none =>
    let g2 := staged.1
    let idx1 := (g2.state.dealer_position + 1) % g2.state.players.length
    let g3 : TexasHoldem :=
      { g2 with state := { g2.state with current_player_index := idx1 } }
    (g3.advance_to_next_player, none)

/-- `TexasHoldem::check_round_completion` from state.rs. -/
def TexasHoldem.check_round_completion (g : TexasHoldem) :
    TexasHoldem × Option GameError :=
  let active_players := g.state.players.filter (fun p => p.is_active)
  if active_players.length ≤ 1 then
    ({ g with state := { g.state with stage := GameStage.Showdown } }, none)
  else
    let current_bet_round := g.current_bet_round
    let all_acted := active_players.all (fun p => p.has_acted || p.chips = 0)
    let all_called := active_players.all
      (fun p => p.current_bet = current_bet_round || p.chips = 0)
    if all_acted && all_called then g.advance_to_next_stage else (g, none)

/-- The per-action mutation of `handle_action` (validation errors return
before the action's own mutation, exactly as in the source; the caller has
already performed the early `reset_has_acted`). -/
def TexasHoldem.actionCase (g : TexasHoldem) (player_index : Nat)
    (current_bet_round : Nat) (p : EPlayer) (action : EPlayerAction) :
    TexasHoldem × Option GameError :=
  match action with
  | EPlayerAction.Fold =>
    ((g.updPlayer player_index (fun q =>
        { q with is_active := false, has_acted := true })).advance_to_next_player, none)
  | EPlayerAction.Check =>
    if current_bet_round > p.current_bet then (g, some GameError.InvalidAction)
    else
      ((g.updPlayer player_index (fun q =>
          { q with has_acted := true })).advance_to_next_player, none)
  | EPlayerAction.Bet amount =>
    if current_bet_round > 0 then (g, some GameError.InvalidAction)
    else if amount > p.chips then (g, some GameError.InsufficientChips)
    else
      let g1 := g.updPlayer player_index (fun q =>
        { q with chips := q.chips - amount, current_bet := q.current_bet + amount,
                 total_bet_in_hand := q.total_bet_in_hand + amount, has_acted := true })
      let g2 : TexasHoldem := { g1 with state := { g1.state with pot := g1.state.pot + amount } }
      (g2.advance_to_next_player, none)
  | EPlayerAction.Raise amount =>
    if current_bet_round = 0 then (g, some GameError.InvalidAction)
    else
      let total_needed := current_bet_round + amount
      if total_needed > p.chips + p.current_bet then (g, some GameError.InsufficientChips)
      else
        let chips_to_put := total_needed - p.current_bet
        let g1 := g.updPlayer player_index (fun q =>
          { q with chips := q.chips - chips_to_put,
                   current_bet := q.current_bet + chips_to_put,
                   total_bet_in_hand := q.total_bet_in_hand + chips_to_put,
                   has_acted := true })
        let g2 : TexasHoldem := { g1 with state := { g1.state with pot := g1.state.pot + chips_to_put } }
        (g2.advance_to_next_player, none)
  | EPlayerAction.Call =>
    let amount_to_call := current_bet_round - p.current_bet
    if amount_to_call = 0 then (g, some GameError.InvalidAction)
    else if amount_to_call > p.chips then (g, some GameError.InsufficientChips)
    else
      let g1 := g.updPlayer player_index (fun q =>
        { q with chips := q.chips - amount_to_call,
                 current_bet := q.current_bet + amount_to_call,
                 total_bet_in_hand := q.total_bet_in_hand + amount_to_call,
                 has_acted := true })
      let g2 : TexasHoldem := { g1 with state := { g1.state with pot := g1.state.pot + amount_to_call } }
      (g2.advance_to_next_player, none)

/-- `TexasHoldem::handle_action` from state.rs. Note the source calls
`reset_has_acted` for Bet/Raise before any validation, so a Bet/Raise that
subsequently errors still clears every player's `has_acted` flag. -/
def TexasHoldem.handle_action (g : TexasHoldem) (action : EPlayerAction) :
    TexasHoldem × Option GameError :=
  let current_bet_round := g.current_bet_round
  let player_index := g.state.current_player_index
  let g0 :=
    match action with
    | EPlayerAction.Bet _ => g.reset_has_acted
    | EPlayerAction.Raise _ => g.reset_has_acted
    | _ => g
  match g0.state.players.get? player_index with
  | none => (g0, some GameError.PlayerNotFound)
  | some p =>
    if !p.is_active then (g0, some GameError.InvalidAction)
    else
      let acted := g0.actionCase player_index current_bet_round p action
      match acted.2 with
      | some e => (acted.1, some e)
      | none => acted.1.check_round_completion

end TexasEngine

namespace PokerWs

/-- `RoomConfig` from main.rs. -/
structure RoomConfig where
  small_blind : Nat
  big_blind : Nat
  starting_stack : Nat
  rebuy_hands : Nat
  room_duration_sec : Nat
  action_time_ms : Nat
deriving DecidableEq, Repr

/-- `RoomConfig::default()`. -/
def RoomConfig.default : RoomConfig :=
  { small_blind := 5, big_blind := 10, starting_stack := 1000,
    rebuy_hands := 0, room_duration_sec := 0, action_time_ms := 8000 }

/-- `ActorMsg` (with `ClientAction` inlined) from main.rs. Fields that only
feed log lines or broadcasts are kept for fidelity. -/
inductive ActorMsg where
  | Subscribe
  | CreateRoom
  | Tick
  | Join (table_id : String) (buy_in : Nat) (client_msg_id : String)
  | JoinRoom (table_id : String) (client_msg_id : String)
  | Ready (table_id : String) (client_msg_id : String) (ready : Bool)
  | LeaveRoom (table_id : String) (client_msg_id : String)
  | Rebuy (table_id : String) (client_msg_id : String)
  | Action (table_id hand_id : String) (action : String) (amount : Option Nat)
      (client_msg_id : String)
deriving DecidableEq, Repr

/-- `HashMap` lookup (association list model; keys are unique). -/
def lookupMap {β : Type} (m : List (String × β)) (k : String) : Option β :=
  (m.find? (fun p => p.1 = k)).map (fun p => p.2)

/-- `HashMap::insert`: replace the binding or append a new one. -/
def insertMap {β : Type} (m : List (String × β)) (k : String) (v : β) :
    List (String × β) :=
  if (m.find? (fun p => p.1 = k)).isSome then
    m.map (fun p => if p.1 = k then (k, v) else p)
  else m ++ [(k, v)]

/-- `HashMap::remove`. -/
def removeMap {β : Type} (m : List (String × β)) (k : String) :
    List (String × β) :=
  m.filter (fun p => p.1 ≠ k)

/-- `HashMap::entry(k).or_insert(v)` (the resulting map). -/
def orInsertMap {β : Type} (m : List (String × β)) (k : String) (v : β) :
    List (String × β) :=
  if (lookupMap m k).isSome then m else m ++ [(k, v)]

/-- `TableActor` from main.rs. Time (`Instant`) is a `Nat` in milliseconds.
The `subscribers` vector and the outbound broadcasts are pure output effects
and carry no table state, so they are not part of the embedded state. -/
structure TableActor where
  table_id : String
  state : TableState
  deck : List Card
  table : Table
  host_user : String
  config : RoomConfig
  rebuys_left : List (String × Nat)
  room_end_at : Option Nat
  action_deadline : Option Nat
  ready_status : List (String × Bool)
  countdown_end : Option Nat
deriving DecidableEq, Repr

/-- `TableActor::spawn_with_config`, with the post-shuffle deck supplied as a
parameter (the source shuffles a fresh deck with a thread-local RNG before
processing messages; any permutation of `Deck.new` is a possible outcome). -/
def TableActor.spawn_with_config (table_id host_user : String)
    (config : RoomConfig) (now : Nat) (shuffled : List Card) : TableActor :=
  { table_id := table_id,
    state := TableState.default,
    deck := shuffled,
    table := Table.new table_id 6 config.small_blind config.big_blind,
    host_user := host_user,
    config := config,
    rebuys_left := [],
    room_end_at :=
      if config.room_duration_sec > 0 then some (now + config.room_duration_sec * 1000)
      else none,
    action_deadline := none,
    ready_status := [],
    countdown_end := none }

/-- `room_end_at.map_or(true, |end| now < end)`: the room is still alive. -/
def TableActor.roomAlive (a : TableActor) (now : Nat) : Bool :=
  match a.room_end_at with
  | none => true
  | some e => decide (now < e)

/-- Common body of the `Join` and `JoinRoom` handlers (the source duplicates
this code verbatim in the two match arms): sit the player, initialise rebuy
and ready entries, and — when at least two players are active and the
actor-local `state.street` (note: not the table's street) is `None` — start
a hand if the room is alive. -/
def TableActor.handleJoinCore (a : TableActor) (cid : String) (stack : Nat)
    (now : Nat) : TableActor :=
  let t1 := (a.table.sit cid stack).1
  let a1 : TableActor :=
    { a with table := t1,
             rebuys_left := orInsertMap a.rebuys_left cid a.config.rebuy_hands,
             ready_status := insertMap a.ready_status cid false }
  if a1.table.active_player_count ≥ 2 ∧ a1.state.street = none then
    if a1.roomAlive now then
      let r := a1.table.start_hand a1.deck
      { a1 with table := r.1, deck := r.2,
                action_deadline := some (now + a1.config.action_time_ms) }
    else a1
  else a1

/-- The `LeaveRoom` handler: if the user is seated, vacate (no hand open) or
mark sitting out (hand open), and cancel the countdown. A user who is not
seated changes nothing (the countdown is not cancelled either). -/
def TableActor.handleLeave (a : TableActor) (cid : String) : TableActor :=
  match a.table.seats.findIdx? (fun s => s.user_id = some cid) with
  | none => a
  | some i =>
    let a1 : TableActor :=
      if a.table.state.street = none then
        { a with table := { a.table with seats := a.table.seats.set i Seat.empty },
                 ready_status := removeMap a.ready_status cid }
      else
        { a with table := a.table.updSeat i (fun s => { s with sitting_out := true }),
                 ready_status := insertMap a.ready_status cid false }
    { a1 with countdown_end := none }

/-- The `Rebuy` handler. Note the guard consults the actor-local
`state.street` (which no handler ever writes), not the table's street. -/
def TableActor.handleRebuy (a : TableActor) (cid : String) : TableActor :=
  if a.state.street = none then
    let m1 := orInsertMap a.rebuys_left cid a.config.rebuy_hands
    let v := (lookupMap m1 cid).getD 0
    if v > 0 then
      match a.table.seats.findIdx? (fun s => s.user_id = some cid) with
      | some i =>
        if (a.table.seatD i).stack < a.config.starting_stack then
          { a with
            table := a.table.updSeat i (fun s => { s with stack := a.config.starting_stack }),
            rebuys_left := insertMap m1 cid (v - 1) }
        else { a with rebuys_left := m1 }
      | none => { a with rebuys_left := m1 }
    else { a with rebuys_left := m1 }
  else a

/-- The `Action` handler: forward to the table; on `NextStreet` advance the
street, and at Showdown pay out and — if at least two players remain and the
room is alive — start the next hand. `none` models a panic inside the
payout's rank evaluation. -/
def TableActor.handleAction (a : TableActor) (cid action : String)
    (amount : Option Nat) (now : Nat) : Option TableActor :=
  let r := a.table.apply_action_by_user cid action amount
  match r.1 with
  | Except.ok ApplyOutcome.NextStreet =>
    let ns := r.2.next_street a.deck
    let a1 : TableActor :=
      { a with table := ns.1, deck := ns.2,
               action_deadline := some (now + a.config.action_time_ms) }
    if a1.table.state.street = some Street.Showdown then
      match a1.table.showdown_and_payout with
      | none => none
      | some t2 =>
        let a2 : TableActor := { a1 with table := t2 }
        if a2.table.active_player_count ≥ 2 ∧ a2.roomAlive now then
          let sh := a2.table.start_hand a2.deck
          some { a2 with table := sh.1, deck := sh.2,
                         action_deadline := some (now + a2.config.action_time_ms) }
        else some a2
    else some a1
  | _ => some { a with table := r.2 }

/-- The auto-action of the `Tick` handler (hand open, deadline passed,
acting seat occupied): try `check` in the acting seat's name, falling back
to `fold`. -/
def Table.autoActTable (t : Table) (uid : String) : Table :=
  let r1 := t.apply_action_by_user uid "check" none
  match r1.1 with
  | Except.ok _ => r1.2
  | Except.error _ => (r1.2.apply_action_by_user uid "fold" none).2

/-- The auto-action part of the `Tick` handler, continued: advance the street
unconditionally, reset the deadline, and pay out at Showdown. -/
def TableActor.tickAutoAct (a : TableActor) (uid : String) (now : Nat) :
    Option TableActor :=
  let t1 := a.table.autoActTable uid
  let ns := t1.next_street a.deck
  let a1 : TableActor :=
    { a with table := ns.1, deck := ns.2,
             action_deadline := some (now + a.config.action_time_ms) }
  if a1.table.state.street = some Street.Showdown then
    (a1.table.showdown_and_payout).map (fun t2 => { a1 with table := t2 })
  else some a1

/-- The all-ready check of the `Tick` handler: every occupied,
non-sitting-out seat's user is marked ready. -/
def TableActor.allSeatedReady (a : TableActor) : Bool :=
  a.table.seats.all (fun s =>
    match s.user_id with
    | some uid => if !s.sitting_out then (lookupMap a.ready_status uid).getD false else true
    | none => true)

/-- The countdown part of the `Tick` handler (no open hand, at least two
active players). -/
def TableActor.tickCountdown (a : TableActor) (now : Nat) : TableActor :=
  let all_ready := a.allSeatedReady
  if all_ready ∧ a.roomAlive now then
    let e := (a.countdown_end).getD (now + 2000)
    if now ≥ e then
      let sh := a.table.start_hand a.deck
      { a with table := sh.1, deck := sh.2,
               action_deadline := some (now + a.config.action_time_ms),
               countdown_end := none }
    else { a with countdown_end := some e }
  else { a with countdown_end := none }

/-- The `Tick` handler from main.rs. -/
def TableActor.handleTick (a : TableActor) (now : Nat) : Option TableActor :=
  if a.table.state.street.isSome ∧ a.table.state.street ≠ some Street.Showdown then
    if (match a.room_end_at with | some e => decide (now ≥ e) | none => false) then
      some a
    else if (match a.action_deadline with | some dl => decide (now < dl) | none => false) then
      some a
    else
      match (a.table.seatD a.table.to_act_idx).user_id with
      | none => some a
      | some uid => a.tickAutoAct uid now
  else
    if a.table.active_player_count ≥ 2 ∧ a.table.state.street = none then
      some (a.tickCountdown now)
    else some a

/-- One actor step: process one inbox message at time `now`. `none` models a
panic (rank evaluation on fewer than five cards during a payout). -/
def TableActor.step (a : TableActor) (msg : ActorMsg) (now : Nat) :
    Option TableActor :=
  match msg with
  | ActorMsg.Subscribe => some a
  | ActorMsg.CreateRoom => some a
  | ActorMsg.Tick => a.handleTick now
  | ActorMsg.Join _ buy_in cid =>
    let stack := if a.config.starting_stack > 0 then a.config.starting_stack else buy_in
    some (a.handleJoinCore cid stack now)
  | ActorMsg.JoinRoom _ cid => some (a.handleJoinCore cid a.config.starting_stack now)
  | ActorMsg.Ready _ cid r => some { a with ready_status := insertMap a.ready_status cid r }
  | ActorMsg.LeaveRoom _ cid => some (a.handleLeave cid)
  | ActorMsg.Rebuy _ cid => some (a.handleRebuy cid)
  | ActorMsg.Action _ _ act amt cid => a.handleAction cid act amt now

/-- Reachable actor states: spawned with any configuration and any shuffle of
the fresh deck, then driven by any message sequence. -/
inductive Reachable : TableActor → Prop where
  | init (table_id host_user : String) (config : RoomConfig) (now : Nat)
      (shuffled : List Card) (hperm : shuffled.Perm Deck.new) :
      Reachable (TableActor.spawn_with_config table_id host_user config now shuffled)
  | step (a a' : TableActor) (msg : ActorMsg) (now : Nat) :
      Reachable a → a.step msg now = some a' → Reachable a'

end PokerWs

namespace PokerWs

/-! Concrete states used by the scenario theorems below. -/

/-- Shorthand card constructor. -/
def mkCard (r : Nat) (s : Suit) : Card := { rank := r, suit := s }

/-- An occupied, in-hand seat with the given user and hole cards (stack 0),
as the repo test side_pot_simple_allin sets up. -/
def seatWith (uid : String) (hole : List Card) : Seat :=
  { user_id := some uid, stack := 0, hole := hole, sitting_out := false,
    has_folded := false, is_allin := false, acted_in_round := false }

/-- The three-way side-pot scenario of spec §8 (and the repo test
side_pot_simple_allin): A contributed 50 (all-in), B 100, C 100, pot 250,
board 2h 5s Jd Qc Kh, holes A 2c 3c, B 7c 7d, C 8c 8d. -/
def sidePotTable : Table :=
  { id := "t1", max_seats := 6,
    seats := [seatWith "a" [mkCard 2 Suit.C, mkCard 3 Suit.C],
              seatWith "b" [mkCard 7 Suit.C, mkCard 7 Suit.D],
              seatWith "c" [mkCard 8 Suit.C, mkCard 8 Suit.D],
              Seat.empty, Seat.empty, Seat.empty],
    dealer_idx := 0, to_act_idx := 0,
    board := [mkCard 2 Suit.H, mkCard 5 Suit.S, mkCard 11 Suit.D,
              mkCard 12 Suit.C, mkCard 13 Suit.H],
    state := { small_blind := 1, big_blind := 2, pot := 250, street := none },
    round_bet := 0,
    round_contrib := [0, 0, 0, 0, 0, 0],
    total_contrib := [50, 100, 100, 0, 0, 0] }

/-- Room configuration with one rebuy allowed (otherwise the default). -/
def cfgRebuy : RoomConfig := { RoomConfig.default with rebuy_hands := 1 }

/-- Actor trace: freshly spawned room (identity shuffle). -/
def trace0 : TableActor :=
  TableActor.spawn_with_config "t" "host" cfgRebuy 0 Deck.new

/-- Actor trace: after `join_room` by u1 at time 100. -/
def trace1 : TableActor :=
  (trace0.step (ActorMsg.JoinRoom "t" "u1") 100).getD trace0

/-- Actor trace: after `join_room` by u2 at time 200 (this join starts a
hand). -/
def trace2 : TableActor :=
  (trace1.step (ActorMsg.JoinRoom "t" "u2") 200).getD trace0

/-- Actor trace: after u2's `rebuy` at time 300, during the open hand. -/
def trace3 : TableActor :=
  (trace2.step (ActorMsg.Rebuy "t" "u2") 300).getD trace0

/-- Actor trace: after a third `join_room` by u3 at time 400 (restarts the
hand mid-hand; leaves a three-player Preflop with blinds 5/10 posted by u2
and u3 and seat 0 to act facing a 10-chip call). -/
def trace4 : TableActor :=
  (trace3.step (ActorMsg.JoinRoom "t" "u3") 400).getD trace0

/-- Actor trace: tick at time 9000, past the action deadline of trace4. -/
def trace5 : TableActor :=
  (trace4.step ActorMsg.Tick 9000).getD trace0

/-- A table whose only contributor has folded: layer eligibility is empty. -/
def foldedPotTable : Table :=
  { sidePotTable with
    seats := [{ seatWith "a" [mkCard 2 Suit.C, mkCard 3 Suit.C] with has_folded := true },
              Seat.empty, Seat.empty, Seat.empty, Seat.empty, Seat.empty],
    state := { sidePotTable.state with pot := 50 },
    total_contrib := [50, 0, 0, 0, 0, 0] }

/-- A table at showdown with a two-card board: rank evaluation panics. -/
def shortBoardTable : Table :=
  { sidePotTable with
    board := [mkCard 2 Suit.H, mkCard 5 Suit.S],
    state := { sidePotTable.state with street := some Street.Showdown } }

end PokerWs

namespace TexasEngine

/-- A player for the concrete engine-crate scenarios. -/
def mkPlayer (idv : String) (bet : Nat) (act : Bool)
    (cs : Option (ECard × ECard)) : EPlayer :=
  { id := idv, name := idv, chips := 0, cards := cs, is_active := act,
    current_bet := 0, has_acted := true, total_bet_in_hand := bet }

/-- A royal-flush-on-board community (every active player ties). -/
def royalBoard : List ECard :=
  [{ suit := ESuit.Spades, rank := 14 }, { suit := ESuit.Spades, rank := 13 },
   { suit := ESuit.Spades, rank := 12 }, { suit := ESuit.Spades, rank := 11 },
   { suit := ESuit.Spades, rank := 10 }]

/-- Showdown with pot 3 and two tied winners: each contributed 1, the third
player folded; the royal-flush board makes players 0 and 1 split. -/
def tieGame : TexasHoldem :=
  { state :=
    { players :=
        [mkPlayer "a" 1 true (some ({ suit := ESuit.Hearts, rank := 2 }, { suit := ESuit.Hearts, rank := 3 })),
         mkPlayer "b" 1 true (some ({ suit := ESuit.Diamonds, rank := 2 }, { suit := ESuit.Diamonds, rank := 3 })),
         mkPlayer "c" 1 false (some ({ suit := ESuit.Hearts, rank := 4 }, { suit := ESuit.Hearts, rank := 5 }))],
      community_cards := royalBoard, pot := 3, current_player_index := 0,
      stage := GameStage.Showdown, dealer_position := 0,
      small_blind := 0, big_blind := 1 },
    deck := [] }

/-- Preflop heads-up state with no bet outstanding and both players marked
as having acted (so any state change by a failed action is visible). -/
def raiseNoBetGame : TexasHoldem :=
  { state :=
    { players := [mkPlayer "a" 0 true none,
                  { mkPlayer "b" 0 true none with chips := 50 }],
      community_cards := [], pot := 0, current_player_index := 0,
      stage := GameStage.PreFlop, dealer_position := 0,
      small_blind := 1, big_blind := 2 },
    deck := [] }

end TexasEngine

namespace PokerWs

/-- The pot invariant of spec §3: `pot = Σ total_contrib[i]`. -/
def Table.potInv (t : Table) : Prop :=
  t.state.pot = t.total_contrib.sum

instance (t : Table) : Decidable t.potInv := by
  unfold Table.potInv; infer_instance

/-- Sum of all seat stacks. -/
def stackSum (seats : List Seat) : Nat :=
  (seats.map (fun s => s.stack)).sum

/-- The result of the three-way side-pot payout (the payout succeeds; the
equation is checked in the corresponding witness). -/
def sidePotPayoutTable : Table :=
  (sidePotTable.showdown_and_payout).getD sidePotTable

end PokerWs

open PokerWs TexasEngine

/-! Claim theorems. -/

set_option maxRecDepth 4096 in
/-- C7 (code_bug): the poker-ws evaluator `eval5` does not detect the wheel —
A-2-3-4-5 comes back as HighCard with kickers [14,5,4,3,2] (its own wheel
branch tests `ends_with([5,4,3,2])` on an ascending-sorted list, which never
holds), while 2-3-4-5-6 is a Straight; the wheel still compares below the
six-high straight, but only because HighCard < Straight. The engine crate's
`check_straight` (and `evaluate_hand`, matching the repo test
test_straight_ace_low) does detect the wheel with high card 5. -/
theorem wheel_detection_divergence :
    eval5 (mkCard 14 Suit.H) (mkCard 2 Suit.C) (mkCard 3 Suit.D)
        (mkCard 4 Suit.S) (mkCard 5 Suit.H)
      = { cat := 0, kick := [14, 5, 4, 3, 2] } ∧
    eval5 (mkCard 2 Suit.H) (mkCard 3 Suit.C) (mkCard 4 Suit.D)
        (mkCard 5 Suit.S) (mkCard 6 Suit.H)
      = { cat := 4, kick := [6, 5, 4, 3, 2] } ∧
    HandRank.lt { cat := 0, kick := [14, 5, 4, 3, 2] }
        { cat := 4, kick := [6, 5, 4, 3, 2] } = true ∧
    check_straight
        [{ suit := ESuit.Hearts, rank := 14 }, { suit := ESuit.Clubs, rank := 2 },
         { suit := ESuit.Diamonds, rank := 3 }, { suit := ESuit.Spades, rank := 4 },
         { suit := ESuit.Hearts, rank := 5 }] = (true, 5) ∧
    evaluate_hand ({ suit := ESuit.Hearts, rank := 14 }, { suit := ESuit.Diamonds, rank := 2 })
        [{ suit := ESuit.Clubs, rank := 3 }, { suit := ESuit.Spades, rank := 4 },
         { suit := ESuit.Hearts, rank := 5 }, { suit := ESuit.Diamonds, rank := 13 },
         { suit := ESuit.Clubs, rank := 12 }]
      = { rank := HandRankName.Straight, kickers := [5] } := by
  refine ⟨?_, ?_, ?_, ?_, ?_⟩ <;> decide

/-- C8 (counterexample): `deal_n(2)` on a one-card deck returns the single
remaining card — a shorter list — rather than failing. -/
theorem deal_n_short_returns_shorter :
    Deck.deal_n [mkCard 2 Suit.H] 2 = ([mkCard 2 Suit.H], []) ∧
    (Deck.deal_n [mkCard 2 Suit.H] 2).1.length = 1 :=
  ⟨rfl, rfl⟩

/-- C8 (amended): `deal_n(k)` always returns `min k |deck|` cards — exactly
`k` when at least `k` remain, and all remaining cards (never a failure)
when fewer remain. -/
theorem deal_n_length (d : List Card) (n : Nat) :
    ((Deck.deal_n d n).1).length = min n d.length := by
  induction n generalizing d with
  | zero => simp [Deck.deal_n]
  | succ m ih =>
    cases d with
    | nil => simp [Deck.deal_n, Deck.deal]
    | cons c rest =>
      have hne : (c :: rest : List Card) ≠ [] := by simp
      have hlast : ∃ x, (c :: rest).getLast? = some x := by
        cases h : (c :: rest).getLast? with
        | none => exact absurd (List.getLast?_eq_none_iff.mp h) hne
        | some x => exact ⟨x, rfl⟩
      obtain ⟨x, hx⟩ := hlast
      have hlen : (c :: rest).dropLast.length = rest.length := by
        simp [List.length_dropLast]
      simp only [Deck.deal_n, Deck.deal, hx]
      simp only [List.length_cons, ih, hlen]
      omega

/-- Setting index `i` to its old value plus `a` raises the sum by `a`. -/
theorem sum_set_getD_add (l : List Nat) (i a : Nat) (h : i < l.length) :
    (l.set i (l.getD i 0 + a)).sum = l.sum + a := by
  induction l generalizing i with
  | nil => simp at h
  | cons x xs ih =>
    cases i with
    | zero => simp [List.getD_cons_zero]; omega
    | succ j =>
      have hj : j < xs.length := by simpa using h
      have hx := ih j hj
      simp only [List.set_cons_succ, List.getD_cons_succ, List.sum_cons, hx]
      omega

/-- Summing a constant-zero map gives zero. -/
theorem sum_map_zero {α : Type} (l : List α) : (l.map (fun _ => (0 : Nat))).sum = 0 := by
  induction l with
  | nil => rfl
  | cons x xs ih => simp [ih]

/-- `dealPass` keeps the number of seats. -/
theorem dealPass_length (seats : List Seat) (deck : List Card) :
    (dealPass seats deck).1.length = seats.length := by
  induction seats generalizing deck with
  | nil => rfl
  | cons s rest ih =>
    simp only [dealPass]
    split
    . split
      . simp [ih]
      . simp [ih]
    . simp [ih]

/-- Setting the same value plus `a`, general form covering the out-of-range
no-op case (where the added amount must be zero). -/
theorem sum_set_getD_add_cases (l : List Nat) (i a : Nat)
    (h : l.length ≤ i → a = 0) :
    (l.set i (l.getD i 0 + a)).sum = l.sum + a := by
  rcases lt_or_ge i l.length with hlt | hge
  . exact sum_set_getD_add l i a hlt
  . rw [List.set_eq_of_length_le hge, h hge]
    simp

/-- The seat-search loop stays below `max_seats` (positive seat count). -/
theorem nextOccupiedAux_lt (t : Table) (h : 0 < t.max_seats) :
    ∀ fuel idx, t.nextOccupiedAux idx (fuel + 1) < t.max_seats := by
  intro fuel
  induction fuel with
  | zero =>
    intro idx
    simp only [Table.nextOccupiedAux]
    split
    . exact Nat.mod_lt _ h
    . exact Nat.mod_lt _ h
  | succ m ih =>
    intro idx
    simp only [Table.nextOccupiedAux]
    split
    . exact Nat.mod_lt _ h
    . exact ih _

/-- `next_occupied_from` stays below `max_seats` (positive seat count). -/
theorem next_occupied_from_lt (t : Table) (idx : Nat) (h : 0 < t.max_seats) :
    t.next_occupied_from idx < t.max_seats := by
  unfold Table.next_occupied_from
  cases hm : t.max_seats with
  | zero => omega
  | succ m =>
    have hx := nextOccupiedAux_lt t h m idx
    rw [hm] at hx
    exact hx

/-- A freshly constructed table satisfies the pot invariant. -/
theorem potInv_new (id : String) (ms sb bb : Nat) : (Table.new id ms sb bb).potInv := by
  simp [Table.new, Table.potInv, List.sum_replicate]

/-- `start_hand` establishes the pot invariant (the lists are sized to
`max_seats` and there is at least one seat, as holds by construction). -/
theorem potInv_start_hand (t : Table) (d : List Card)
    (hlen : t.total_contrib.length = t.seats.length)
    (hms : t.seats.length = t.max_seats)
    (hpos : 0 < t.max_seats) :
    ((t.start_hand d).1).potInv := by
  simp only [Table.start_hand, Table.potInv, TableState.start_hand, Table.updSeat]
  rw [sum_set_getD_add _ _ _ ?hbb, sum_set_getD_add _ _ _ ?hsb, sum_map_zero]
  case hsb =>
    simp only [List.length_map]
    rw [hlen, hms]
    exact next_occupied_from_lt _ _ hpos
  case hbb =>
    simp only [List.length_set, List.length_map]
    rw [hlen, hms]
    exact next_occupied_from_lt _ _ hpos

/-- The per-action mutation preserves the pot invariant and the contribution
list length. -/
theorem actionBranch_inv (t : Table) (seat_idx to_call : Nat) (act : String)
    (amt : Option Nat) (t1 : Table)
    (h : t.actionBranch seat_idx to_call act amt = Except.ok t1)
    (hinv : t.potInv) (hsi : seat_idx < t.total_contrib.length) :
    t1.potInv ∧ t1.total_contrib.length = t.total_contrib.length := by
  unfold Table.actionBranch at h
  split at h
  . -- fold
    cases h
    exact ⟨hinv, rfl⟩
  . split at h
    . -- check: cannot check
      split at h
      . cases h
      . cases h
        exact ⟨hinv, rfl⟩
    . split at h
      . -- call
        cases h
        constructor
        . simp only [Table.potInv, Table.updSeat]
          rw [sum_set_getD_add _ _ _ (by simpa using hsi)]
          simp only [Table.potInv] at hinv
          omega
        . simp [Table.updSeat]
      . split at h
        . -- raise
          dsimp only at h
          split at h
          . cases h
          . split at h
            . cases h
            . cases h
              constructor
              . simp only [Table.potInv, Table.updSeat]
                rw [sum_set_getD_add _ _ _ (by simpa using hsi)]
                simp only [Table.potInv] at hinv
                omega
              . simp [Table.updSeat]
        . -- unknown action
          cases h

/-- `apply_action_by_user` preserves the pot invariant on every outcome
(error, Continue, NextStreet, HandEnded). -/
theorem potInv_apply_action (t : Table) (u act : String) (amt : Option Nat)
    (hinv : t.potInv) (hlen : t.total_contrib.length = t.seats.length) :
    ((t.apply_action_by_user u act amt).2).potInv := by
  unfold Table.apply_action_by_user
  cases hf : t.seats.findIdx? (fun s => s.user_id = some u) with
  | none => exact hinv
  | some seat_idx =>
    have hsi : seat_idx < t.seats.length :=
      (List.findIdx?_eq_some_iff_findIdx_eq.mp hf).1
    dsimp only
    split
    . exact hinv
    . split
      . exact hinv
      . cases hb : t.actionBranch seat_idx
            (t.round_bet - t.round_contrib.getD seat_idx 0) act amt with
        | error e => exact hinv
        | ok t1 =>
          have h1 := actionBranch_inv t seat_idx _ act amt t1 hb hinv (by omega)
          dsimp only
          split
          . -- HandEnded: pot cleared, contributions cleared
            simp [Table.potInv, sum_map_zero, Table.updSeat]
          . split
            . exact h1.1
            . exact h1.1

/-- `next_street` touches neither the pot nor the contributions. -/
theorem potInv_next_street (t : Table) (d : List Card) (hinv : t.potInv) :
    ((t.next_street d).1).potInv := by
  unfold Table.next_street
  dsimp only
  simp only [Table.potInv] at hinv ⊢
  split <;> (try split) <;> (try split) <;> simpa

/-- A successful `showdown_and_payout` re-establishes the pot invariant
(pot and contributions are both cleared). -/
theorem potInv_showdown (t t' : Table) (h : t.showdown_and_payout = some t') :
    t'.potInv := by
  unfold Table.showdown_and_payout at h
  cases hr : t.showdownRanks with
  | none => rw [hr] at h; cases h
  | some ranks =>
    rw [hr] at h
    cases h
    simp [Table.potInv, sum_map_zero]

/-- C9: the invariant `pot = Σ total_contrib[i]` holds after every table
operation: it holds for a fresh table, `start_hand` (re-)establishes it, and
`apply_action_by_user` (on every outcome, including the fold-to-one path
and errors), `next_street` and a successful `showdown_and_payout` preserve
it. The length/positivity hypotheses are the construction invariants
(`Table::new` sizes all three lists to `max_seats`, one of the six seats). -/
theorem pot_invariant_all_ops :
    (∀ (id : String) (ms sb bb : Nat), (Table.new id ms sb bb).potInv) ∧
    (∀ (t : Table) (d : List Card), t.total_contrib.length = t.seats.length →
      t.seats.length = t.max_seats → 0 < t.max_seats →
      ((t.start_hand d).1).potInv) ∧
    (∀ (t : Table) (u act : String) (amt : Option Nat),
      t.potInv → t.total_contrib.length = t.seats.length →
      ((t.apply_action_by_user u act amt).2).potInv) ∧
    (∀ (t : Table) (d : List Card), t.potInv → ((t.next_street d).1).potInv) ∧
    (∀ (t t' : Table), t.showdown_and_payout = some t' → t'.potInv) :=
  ⟨potInv_new, potInv_start_hand, potInv_apply_action, potInv_next_street,
   potInv_showdown⟩

/-- C9 witness: the invariant conjuncts applied at the concrete three-way
side-pot table (pot 250 = 50 + 100 + 100). -/
theorem pot_invariant_all_ops_witness :
    ((sidePotTable.apply_action_by_user "a" "fold" none).2).potInv ∧
    ((sidePotTable.start_hand Deck.new).1).potInv ∧
    ((sidePotTable.next_street Deck.new).1).potInv :=
  ⟨pot_invariant_all_ops.2.2.1 sidePotTable "a" "fold" none (by decide) (by decide),
   pot_invariant_all_ops.2.1 sidePotTable Deck.new (by decide) (by decide) (by decide),
   pot_invariant_all_ops.2.2.2.1 sidePotTable Deck.new (by decide)⟩

/-- For the hand sizes that occur (5, 6 or 7 cards), the index combinations
are produced successfully and every produced index is in range. -/
theorem comb_rows_bounded (n : Nat) (hn : n = 5 ∨ n = 6 ∨ n = 7) :
    ∃ L, combinations (List.range n) 5 = some L ∧
      ∀ row ∈ L, row.length = 5 ∧ ∀ i ∈ row, i < n := by
  rcases hn with h | h | h <;> subst h <;> exact ⟨_, rfl, by decide⟩

/-- Looking up a list of in-range indices succeeds (`mapM'` form). -/
theorem mapM'_get?_isSome {α : Type} (cards : List α) (row : List Nat)
    (h : ∀ i ∈ row, i < cards.length) :
    ∃ five, List.mapM' (fun i => cards.get? i) row = some five ∧
      five.length = row.length := by
  induction row with
  | nil => exact ⟨[], rfl, rfl⟩
  | cons i rest ih =>
    have hi : i < cards.length := h i (by simp)
    obtain ⟨x, hx⟩ : ∃ x, cards.get? i = some x := by
      cases hg : cards.get? i with
      | none =>
        exfalso
        have := List.get?_eq_none.mp hg
        omega
      | some x => exact ⟨x, rfl⟩
    obtain ⟨rest5, h5, hlen⟩ := ih (fun j hj => h j (by simp [hj]))
    refine ⟨x :: rest5, ?_, by simp [hlen]⟩
    simp only [List.get?_eq_getElem?] at hx h5
    simp [List.mapM'_cons, hx, h5]

/-- Looking up a list of in-range indices succeeds. -/
theorem mapM_get?_isSome {α : Type} (cards : List α) (row : List Nat)
    (h : ∀ i ∈ row, i < cards.length) :
    ∃ five, row.mapM (fun i => cards.get? i) = some five ∧
      five.length = row.length := by
  obtain ⟨five, h5, hlen⟩ := mapM'_get?_isSome cards row h
  exact ⟨five, by rw [← List.mapM'_eq_mapM]; exact h5, hlen⟩

/-- One `best_rank` comparison step succeeds on an in-range 5-index row. -/
theorem bestStep_isSome (cards : List Card) (best : HandRank) (row : List Nat)
    (hlen : row.length = 5) (hb : ∀ i ∈ row, i < cards.length) :
    ∃ r, bestStep cards best row = some r := by
  obtain ⟨five, h5, hl5⟩ := mapM_get?_isSome cards row hb
  unfold bestStep
  rw [h5]
  rw [hlen] at hl5
  match five, hl5 with
  | [a, b, d, e, f], _ => exact ⟨_, rfl⟩

/-- Folding the comparison over well-formed rows succeeds. -/
theorem foldlM_bestStep_isSome (cards : List Card) (L : List (List Nat))
    (h : ∀ row ∈ L, row.length = 5 ∧ ∀ i ∈ row, i < cards.length) :
    ∀ b, ∃ r, L.foldlM (bestStep cards) b = some r := by
  induction L with
  | nil => intro b; exact ⟨b, rfl⟩
  | cons row rest ih =>
    intro b
    obtain ⟨r1, hr1⟩ := bestStep_isSome cards b row (h row (by simp)).1 (h row (by simp)).2
    obtain ⟨r2, hr2⟩ := ih (fun q hq => h q (by simp [hq])) r1
    exact ⟨r2, by simp [List.foldlM_cons, hr1, hr2]⟩

/-- C10: with the hand sizes the program produces (hole ≤ 2, board ≤ 5),
`best_rank` is total exactly when at least five cards are available: it
returns a rank whenever `|hole| + |board| ≥ 5`, while on fewer than five
cards `combinations` immediately indexes past the end of its input
(modelled as `none`), so evaluating a two-card board — as
`showdown_and_payout` does on a short board — panics. -/
theorem best_rank_totality :
    (∀ (hole board : List Card), hole.length ≤ 2 → board.length ≤ 5 →
      5 ≤ hole.length + board.length → (best_rank hole board).isSome = true) ∧
    best_rank [mkCard 2 Suit.C, mkCard 3 Suit.C] [mkCard 2 Suit.H, mkCard 5 Suit.S] = none ∧
    combinations (List.range 4) 5 = none ∧
    shortBoardTable.showdown_and_payout = none := by
  refine ⟨?_, by decide, by decide, by decide⟩
  intro hole board h2 h5 hge
  have hn : (hole ++ board).length = hole.length + board.length := by
    simp [List.length_append]
  have hcases : (hole ++ board).length = 5 ∨ (hole ++ board).length = 6 ∨
      (hole ++ board).length = 7 := by omega
  obtain ⟨L, hL, hrows⟩ := comb_rows_bounded _ hcases
  unfold best_rank
  dsimp only
  rw [hL]
  obtain ⟨r, hr⟩ := foldlM_bestStep_isSome (hole ++ board) L
    (fun row hrow => ⟨(hrows row hrow).1, fun i hi => (hrows row hrow).2 i hi⟩)
    { cat := 0, kick := [0, 0, 0, 0, 0] }
  simp [hr]

/-- C10 witness: a two-card hole with a three-card board evaluates. -/
theorem best_rank_totality_witness :
    (best_rank [mkCard 2 Suit.C, mkCard 3 Suit.C]
      [mkCard 7 Suit.H, mkCard 8 Suit.S, mkCard 9 Suit.D]).isSome = true :=
  best_rank_totality.1 _ _ (by decide) (by decide) (by decide)

/-- One layer's amount plus the remaining contributions equals the original
total, provided the layer height is at most every positive entry. -/
theorem layerStep_sum (rem : List Nat) (layer : Nat)
    (h : ∀ c ∈ rem, 0 < c → layer ≤ c) :
    (layerStep layer rem).1 + (layerStep layer rem).2.sum = rem.sum := by
  induction rem with
  | nil => rfl
  | cons c rest ih =>
    have hc := h c (by simp)
    have ih2 := ih (fun x hx hp => h x (by simp [hx]) hp)
    simp only [layerStep]
    split
    . simp only [List.sum_cons]
      have : layer ≤ c := hc (by omega)
      omega
    . simp only [List.sum_cons]
      omega

/-- `layerStep` preserves the list length. -/
theorem layerStep_length (rem : List Nat) (layer : Nat) :
    (layerStep layer rem).2.length = rem.length := by
  induction rem with
  | nil => rfl
  | cons c rest ih => simp only [layerStep]; split <;> simp [ih]

/-- The layer amount is the height times the number of positive entries. -/
theorem layerStep_fst (rem : List Nat) (layer : Nat) :
    (layerStep layer rem).1 = layer * rem.countP (fun c => decide (0 < c)) := by
  induction rem with
  | nil => simp [layerStep]
  | cons c rest ih =>
    simp only [layerStep, List.countP_cons]
    split
    . next hcp =>
      have : decide (0 < c) = true := by simpa using hcp
      simp [ih, this, Nat.mul_add]
    . next hcp =>
      have : decide (0 < c) = false := by simpa using hcp
      simp [ih, this]

/-- Positive entries never increase across a layer. -/
theorem layerStep_countP_le (rem : List Nat) (layer : Nat) :
    (layerStep layer rem).2.countP (fun c => decide (0 < c)) ≤
      rem.countP (fun c => decide (0 < c)) := by
  induction rem with
  | nil => simp [layerStep]
  | cons c rest ih =>
    simp only [layerStep]
    split
    . next hcp =>
      by_cases hd : 0 < c - layer
      . simp [List.countP_cons, hd, hcp]; omega
      . simp [List.countP_cons, hd, hcp]; omega
    . simp [List.countP_cons]; omega

/-- Taking a positive entry of the list as the layer height strictly
decreases the number of positive entries. -/
theorem layerStep_countP_lt (rem : List Nat) (layer : Nat)
    (hmem : layer ∈ rem) (hpos : 0 < layer) :
    (layerStep layer rem).2.countP (fun c => decide (0 < c)) <
      rem.countP (fun c => decide (0 < c)) := by
  induction rem with
  | nil => cases hmem
  | cons c rest ih =>
    rcases List.mem_cons.mp hmem with hc | hrest
    . subst hc
      simp only [layerStep]
      split
      . next hcp =>
        have hle := layerStep_countP_le rest layer
        have h0 : ¬ (0 < layer - layer) := by omega
        simp [List.countP_cons, h0, hpos]
        omega
      . next hcp => omega
    . simp only [layerStep]
      split
      . next hcp =>
        have := ih hrest
        by_cases hd : 0 < c - layer
        . simp [List.countP_cons, hd, hcp]; omega
        . simp [List.countP_cons, hd, hcp]; omega
      . next hcp =>
        have := ih hrest
        simp [List.countP_cons]
        omega

/-- A list with no positive entries sums to zero. -/
theorem sum_eq_zero_of_countP_zero (rem : List Nat)
    (h : rem.countP (fun c => decide (0 < c)) = 0) : rem.sum = 0 := by
  induction rem with
  | nil => rfl
  | cons c rest ih =>
    rw [List.countP_cons] at h
    by_cases hc : 0 < c
    . simp [hc] at h
    . have hc0 : c = 0 := by omega
      have h1 : rest.countP (fun c => decide (0 < c)) = 0 := by
        simp only [hc, decide_eq_true_eq, if_false] at h
        omega
      simp [hc0, ih h1]

/-- `min?` on a list of naturals returns a least member. -/
theorem nat_min?_spec {l : List Nat} {a : Nat} (h : l.min? = some a) :
    a ∈ l ∧ ∀ b ∈ l, a ≤ b :=
  List.min?_eq_some_iff'.mp h

/-- With enough fuel (at least the number of positive entries — `length`
always suffices), the side-pot layer amounts sum to the total of the
contributions. -/
theorem sidePotsAux_amounts (t : Table) :
    ∀ (fuel : Nat) (rem : List Nat),
      rem.countP (fun c => decide (0 < c)) ≤ fuel →
      ((t.sidePotsAux rem fuel).map Prod.fst).sum = rem.sum := by
  intro fuel
  induction fuel with
  | zero =>
    intro rem h
    simp only [Table.sidePotsAux, List.map_nil, List.sum_nil]
    exact (sum_eq_zero_of_countP_zero rem (by omega)).symm
  | succ m ih =>
    intro rem h
    simp only [Table.sidePotsAux]
    cases hmin : (rem.filter (fun c => decide (0 < c))).min? with
    | none =>
      simp only [List.map_nil, List.sum_nil]
      have hf : rem.filter (fun c => decide (0 < c)) = [] := by
        cases hh : rem.filter (fun c => decide (0 < c)) with
        | nil => rfl
        | cons x xs => rw [hh] at hmin; simp [List.min?_cons] at hmin
      have hz : rem.countP (fun c => decide (0 < c)) = 0 := by
        rw [List.countP_eq_length_filter, hf]; rfl
      exact (sum_eq_zero_of_countP_zero rem hz).symm
    | some layer =>
      obtain ⟨hmem, hle⟩ := nat_min?_spec hmin
      have hmem2 : layer ∈ rem := (List.mem_filter.mp hmem).1
      have hpos : 0 < layer := by
        have := (List.mem_filter.mp hmem).2; simpa using this
      have hleast : ∀ c ∈ rem, 0 < c → layer ≤ c := by
        intro c hcr hcp
        exact hle c (List.mem_filter.mpr ⟨hcr, by simpa⟩)
      have hlt := layerStep_countP_lt rem layer hmem2 hpos
      have hrec := ih (layerStep layer rem).2 (by omega)
      simp only [List.map_cons, List.sum_cons, hrec]
      exact layerStep_sum rem layer hleast

/-- Every layer reports the same eligibility list (the source recomputes it
from the unchanging seats and `total_contrib`, over the unchanged index
range). -/
theorem sidePotsAux_eligible (t : Table) :
    ∀ (fuel : Nat) (rem : List Nat) (p : Nat × List Nat),
      p ∈ t.sidePotsAux rem fuel → p.2 = t.payoutEligible rem.length := by
  intro fuel
  induction fuel with
  | zero => intro rem p hp; simp [Table.sidePotsAux] at hp
  | succ m ih =>
    intro rem p hp
    simp only [Table.sidePotsAux] at hp
    cases hmin : (rem.filter (fun c => decide (0 < c))).min? with
    | none => rw [hmin] at hp; simp at hp
    | some layer =>
      rw [hmin] at hp
      rcases List.mem_cons.mp hp with hhd | htl
      . rw [hhd]
      . have := ih (layerStep layer rem).2 p htl
        rwa [layerStep_length] at this

/-- Every layer amount is positive. -/
theorem sidePotsAux_amount_pos (t : Table) :
    ∀ (fuel : Nat) (rem : List Nat) (p : Nat × List Nat),
      p ∈ t.sidePotsAux rem fuel → 0 < p.1 := by
  intro fuel
  induction fuel with
  | zero => intro rem p hp; simp [Table.sidePotsAux] at hp
  | succ m ih =>
    intro rem p hp
    simp only [Table.sidePotsAux] at hp
    cases hmin : (rem.filter (fun c => decide (0 < c))).min? with
    | none => rw [hmin] at hp; simp at hp
    | some layer =>
      rw [hmin] at hp
      rcases List.mem_cons.mp hp with hhd | htl
      . obtain ⟨hmem, _⟩ := nat_min?_spec hmin
        have hmem2 : layer ∈ rem := (List.mem_filter.mp hmem).1
        have hpos : 0 < layer := by
          have := (List.mem_filter.mp hmem).2; simpa using this
        have hcp : 0 < rem.countP (fun c => decide (0 < c)) :=
          List.countP_pos_iff.mpr ⟨layer, hmem2, by simpa⟩
        rw [hhd]
        simp only [layerStep_fst]
        exact Nat.mul_pos hpos hcp
      . exact ih _ p htl

/-- `mapM'` over `Option`: on success, lengths agree and every output entry
is the image of the corresponding input entry. -/
theorem mapM'_get {α β : Type} (f : α → Option β) :
    ∀ (xs : List α) (l : List β), List.mapM' f xs = some l →
      l.length = xs.length ∧
      ∀ k a, xs.get? k = some a → ∃ x, f a = some x ∧ l.get? k = some x := by
  intro xs
  induction xs with
  | nil =>
    intro l h
    cases h
    exact ⟨rfl, by intro k a hk; simp at hk⟩
  | cons a rest ih =>
    intro l h
    simp only [List.mapM'_cons] at h
    cases hfa : f a with
    | none => rw [hfa] at h; simp at h
    | some x =>
      rw [hfa] at h
      cases hrest : List.mapM' f rest with
      | none => rw [hrest] at h; simp at h
      | some lrest =>
        rw [hrest] at h
        simp only [Option.bind_some, Option.bind_eq_bind] at h
        have hl : l = x :: lrest := by
          cases h; rfl
        subst hl
        obtain ⟨hlen, hspec⟩ := ih lrest hrest
        constructor
        . simp [hlen]
        . intro k b hk
          cases k with
          | zero =>
            simp only [List.get?_cons_zero, Option.some.injEq] at hk
            subst hk
            exact ⟨x, hfa, rfl⟩
          | succ k2 =>
            simp only [List.get?_cons_succ] at hk ⊢
            exact hspec k2 b hk

/-- A successful `showdownRanks` assigns a rank to every occupied,
non-folded seat. -/
theorem showdownRanks_spec (t : Table) (ranks : List (Option HandRank))
    (h : t.showdownRanks = some ranks) :
    ∀ i, i < t.max_seats →
      (t.seatD i).user_id.isSome = true → (t.seatD i).has_folded = false →
      (ranks.getD i none).isSome = true := by
  unfold Table.showdownRanks at h
  rw [← List.mapM'_eq_mapM] at h
  obtain ⟨hlen, hspec⟩ := mapM'_get _ _ _ h
  intro i hi hu hf
  have hget : (List.range t.max_seats).get? i = some i := by
    rw [List.get?_eq_getElem?]
    simp [List.getElem?_range, hi]
  obtain ⟨x, hx, hlx⟩ := hspec i i hget
  rw [if_pos (by simp [hu, hf])] at hx
  cases hbr : best_rank (t.seatD i).hole t.board with
  | none => rw [hbr] at hx; simp at hx
  | some r =>
    rw [hbr] at hx
    have hx2 : x = some r := by
      injection hx with h1
      exact h1.symm
    have hgd : ranks.getD i none = x := by
      rw [List.getD_eq_getElem?_getD, ← List.get?_eq_getElem?, hlx]
      rfl
    rw [hgd, hx2]
    rfl

/-- Each winner step keeps, restarts at the current seat, or appends it. -/
theorem winnerStep_cases (ranks : List (Option HandRank))
    (acc : Option HandRank × List Nat) (i : Nat) :
    (winnerStep ranks acc i).2 = acc.2 ∨ (winnerStep ranks acc i).2 = [i] ∨
      (winnerStep ranks acc i).2 = acc.2 ++ [i] := by
  unfold winnerStep
  rcases ranks.getD i none with _ | r
  . left; rfl
  . rcases hacc : acc.1 with _ | b
    . right; left; rfl
    . dsimp only
      split
      . right; left; rfl
      . split
        . right; right; rfl
        . left; rfl

/-- The accumulated winners always form a sublist of the seats processed. -/
theorem foldl_winnerStep_sublist (ranks : List (Option HandRank)) :
    ∀ (elig : List Nat) (acc : Option HandRank × List Nat) (p : List Nat),
      acc.2.Sublist p →
      (elig.foldl (winnerStep ranks) acc).2.Sublist (p ++ elig) := by
  intro elig
  induction elig with
  | nil => intro acc p h; simpa using h
  | cons i rest ih =>
    intro acc p h
    simp only [List.foldl_cons]
    have hstep : (winnerStep ranks acc i).2.Sublist (p ++ [i]) := by
      rcases winnerStep_cases ranks acc i with hc | hc | hc <;> rw [hc]
      . exact h.trans (by simp)
      . exact List.sublist_append_of_sublist_right (by simp)
      . exact List.Sublist.append h (List.Sublist.refl _)
    have := ih (winnerStep ranks acc i) (p ++ [i]) hstep
    simpa using this

/-- The winners of a layer are a sublist of its eligible seats. -/
theorem pickWinners_sublist (ranks : List (Option HandRank)) (elig : List Nat) :
    (pickWinners ranks elig).2.Sublist elig := by
  have := foldl_winnerStep_sublist ranks elig (none, []) [] (by simp)
  simpa [pickWinners] using this

/-- A winner step never empties a non-empty winner list. -/
theorem winnerStep_ne_nil (ranks : List (Option HandRank))
    (acc : Option HandRank × List Nat) (i : Nat) (h : acc.2 ≠ []) :
    (winnerStep ranks acc i).2 ≠ [] := by
  rcases winnerStep_cases ranks acc i with hc | hc | hc <;> rw [hc] <;> simp [h]

/-- The fold never empties a non-empty winner list. -/
theorem foldl_winnerStep_ne_nil (ranks : List (Option HandRank)) :
    ∀ (elig : List Nat) (acc : Option HandRank × List Nat), acc.2 ≠ [] →
      (elig.foldl (winnerStep ranks) acc).2 ≠ [] := by
  intro elig
  induction elig with
  | nil => intro acc h; simpa using h
  | cons i rest ih =>
    intro acc h
    simp only [List.foldl_cons]
    exact ih _ (winnerStep_ne_nil ranks acc i h)

/-- The invariant of the winner fold: a best rank implies winners exist. -/
def winnerInv (acc : Option HandRank × List Nat) : Prop :=
  acc.1.isSome = true → acc.2 ≠ []

/-- Winner steps preserve the invariant. -/
theorem winnerStep_inv (ranks : List (Option HandRank))
    (acc : Option HandRank × List Nat) (i : Nat) (h : winnerInv acc) :
    winnerInv (winnerStep ranks acc i) := by
  unfold winnerInv winnerStep at *
  rcases ranks.getD i none with _ | r
  . exact h
  . rcases hacc : acc.1 with _ | b
    . intro _; simp
    . dsimp only
      split
      . intro _; simp
      . split
        . intro _; simp
        . intro hs; exact h (by rw [hacc]; rfl)

/-- The fold preserves the invariant. -/
theorem foldl_winnerStep_inv (ranks : List (Option HandRank)) :
    ∀ (elig : List Nat) (acc : Option HandRank × List Nat), winnerInv acc →
      winnerInv (elig.foldl (winnerStep ranks) acc) := by
  intro elig
  induction elig with
  | nil => intro acc h; simpa using h
  | cons i rest ih =>
    intro acc h
    simp only [List.foldl_cons]
    exact ih _ (winnerStep_inv ranks acc i h)

/-- Processing a seat that has a rank leaves a non-empty winner list. -/
theorem winnerStep_some_ne_nil (ranks : List (Option HandRank))
    (acc : Option HandRank × List Nat) (i : Nat)
    (hr : (ranks.getD i none).isSome = true) (h : winnerInv acc) :
    (winnerStep ranks acc i).2 ≠ [] := by
  unfold winnerStep
  cases hg : ranks.getD i none with
  | none => rw [hg] at hr; simp at hr
  | some r =>
    rcases hacc : acc.1 with _ | b
    . simp
    . dsimp only
      split
      . simp
      . split
        . simp
        . exact h (by rw [hacc]; rfl)

/-- If some eligible seat has a rank, the layer has at least one winner. -/
theorem pickWinners_ne_nil (ranks : List (Option HandRank)) (elig : List Nat)
    (i : Nat) (hi : i ∈ elig) (hr : (ranks.getD i none).isSome = true) :
    (pickWinners ranks elig).2 ≠ [] := by
  obtain ⟨l1, l2, rfl⟩ := List.append_of_mem hi
  unfold pickWinners
  rw [List.foldl_append, List.foldl_cons]
  have hinv : winnerInv (l1.foldl (winnerStep ranks) (none, [])) :=
    foldl_winnerStep_inv ranks l1 (none, []) (by intro h; simp at h)
  exact foldl_winnerStep_ne_nil ranks l2 _
    (winnerStep_some_ne_nil ranks _ i hr hinv)

/-- Adding `share` chips to the stack of an in-range seat raises the stack
sum by `share`. -/
theorem stackSum_set_add (seats : List Seat) (i share : Nat)
    (h : i < seats.length) :
    stackSum (seats.set i
      (let s := seats.getD i Seat.empty; { s with stack := s.stack + share })) =
    stackSum seats + share := by
  induction seats generalizing i with
  | nil => simp at h
  | cons s0 rest ih =>
    cases i with
    | zero => simp [stackSum, List.getD_cons_zero]; omega
    | succ j =>
      have hj : j < rest.length := by simpa using h
      have hx := ih j hj
      simp only [stackSum, List.set_cons_succ, List.getD_cons_succ,
        List.map_cons, List.sum_cons] at hx ⊢
      omega

/-- The credit fold adds `share` per (in-range) index. -/
theorem foldl_credit_sum (share : Nat) :
    ∀ (idxs : List Nat) (seats : List Seat), (∀ i ∈ idxs, i < seats.length) →
      stackSum (idxs.foldl
        (fun acc i => acc.set i
          (let s := acc.getD i Seat.empty; { s with stack := s.stack + share }))
        seats) = stackSum seats + share * idxs.length := by
  intro idxs
  induction idxs with
  | nil => intro seats _; simp
  | cons i rest ih =>
    intro seats hb
    simp only [List.foldl_cons]
    have hi : i < seats.length := hb i (by simp)
    have hlen : (seats.set i
        (let s := seats.getD i Seat.empty; { s with stack := s.stack + share })).length
        = seats.length := by simp
    have := ih _ (by intro j hj; rw [hlen]; exact hb j (by simp [hj]))
    rw [this, stackSum_set_add seats i share hi]
    simp [List.length_cons, Nat.mul_add, Nat.mul_one]
    omega

/-- The credit fold preserves the number of seats. -/
theorem foldl_credit_length (share : Nat) :
    ∀ (idxs : List Nat) (seats : List Seat),
      (idxs.foldl
        (fun acc i => acc.set i
          (let s := acc.getD i Seat.empty; { s with stack := s.stack + share }))
        seats).length = seats.length := by
  intro idxs
  induction idxs with
  | nil => intro seats; rfl
  | cons i rest ih =>
    intro seats
    simp only [List.foldl_cons]
    rw [ih]
    simp

/-- A non-degenerate layer (positive amount, someone eligible, some winner)
distributes exactly its amount: each winner gets the integer-division share
and the first `amount mod winners` winners one extra chip. -/
theorem distributeLayer_sum (ranks : List (Option HandRank)) (seats : List Seat)
    (pot : Nat × List Nat) (hamt : 0 < pot.1) (helig : pot.2 ≠ [])
    (hw : (pickWinners ranks pot.2).2 ≠ [])
    (hb : ∀ i ∈ (pickWinners ranks pot.2).2, i < seats.length) :
    stackSum (distributeLayer ranks seats pot) = stackSum seats + pot.1 := by
  unfold distributeLayer
  rw [if_neg (by simp [List.isEmpty_iff, helig]; omega)]
  rw [if_neg (by simp [List.isEmpty_iff]; exact hw)]
  set winners := (pickWinners ranks pot.2).2 with hwdef
  set amount := pot.1 with hadef
  set share := amount / winners.length with hsdef
  set remainder := amount - share * winners.length with hrdef
  have hWpos : 0 < winners.length := List.length_pos.mpr hw
  have hfold1 := foldl_credit_sum share winners seats hb
  have hlen1 := foldl_credit_length share winners seats
  have htakeb : ∀ i ∈ winners.take remainder,
      i < (winners.foldl
        (fun acc i => acc.set i
          (let s := acc.getD i Seat.empty; { s with stack := s.stack + share }))
        seats).length := by
    intro i hi
    rw [hlen1]
    exact hb i (List.mem_of_mem_take hi)
  have hfold2 := foldl_credit_sum 1 (winners.take remainder) _ htakeb
  rw [hfold2, hfold1]
  have hmod : winners.length * share + amount % winners.length = amount := by
    rw [hsdef]
    exact Nat.div_add_mod amount winners.length
  have hcomm : share * winners.length = winners.length * share :=
    Nat.mul_comm _ _
  have hmlt : amount % winners.length < winners.length := Nat.mod_lt _ hWpos
  have htl : (winners.take remainder).length = remainder := by
    rw [List.length_take]
    apply Nat.min_eq_left
    omega
  rw [htl]
  omega

/-- A layer distribution preserves the number of seats. -/
theorem distributeLayer_length (ranks : List (Option HandRank))
    (seats : List Seat) (pot : Nat × List Nat) :
    (distributeLayer ranks seats pot).length = seats.length := by
  unfold distributeLayer
  dsimp only
  split
  . rfl
  . split
    . rfl
    . rw [foldl_credit_length, foldl_credit_length]

/-- Unpacking membership in the payout eligibility list. -/
theorem payoutEligible_mem (t : Table) (len i : Nat)
    (hi : i ∈ t.payoutEligible len) :
    i < len ∧ i < t.seats.length ∧ (t.seatD i).user_id.isSome = true ∧
      (t.seatD i).has_folded = false := by
  unfold Table.payoutEligible at hi
  obtain ⟨hr, hp⟩ := List.mem_filter.mp hi
  have hilen : i < len := List.mem_range.mp hr
  simp only [Bool.and_eq_true, Bool.not_eq_true', decide_eq_true_eq] at hp
  obtain ⟨⟨⟨hu, hf⟩, _⟩, _⟩ := hp
  refine ⟨hilen, ?_, hu, hf⟩
  by_contra hge
  push_neg at hge
  have hd : t.seatD i = Seat.empty := by
    unfold Table.seatD
    exact List.getD_eq_default _ _ (by omega)
  rw [hd] at hu
  simp [Seat.empty] at hu

/-- Folding layer distributions over well-formed pots adds all the layer
amounts to the stack total. -/
theorem foldl_distribute_sum (ranks : List (Option HandRank)) (t : Table)
    (hms : t.seats.length = t.max_seats)
    (hrk : ∀ i, i < t.max_seats → (t.seatD i).user_id.isSome = true →
      (t.seatD i).has_folded = false → (ranks.getD i none).isSome = true)
    (hne : t.payoutEligible t.total_contrib.length ≠ []) :
    ∀ (pots : List (Nat × List Nat)) (seats : List Seat),
      seats.length = t.seats.length →
      (∀ p ∈ pots, 0 < p.1 ∧ p.2 = t.payoutEligible t.total_contrib.length) →
      stackSum (pots.foldl (distributeLayer ranks) seats) =
        stackSum seats + (pots.map Prod.fst).sum := by
  intro pots
  induction pots with
  | nil => intro seats _ _; simp
  | cons pot rest ih =>
    intro seats hlen hpots
    obtain ⟨hamt, helig⟩ := hpots pot (by simp)
    obtain ⟨i0, hi0⟩ := List.exists_mem_of_ne_nil _ (helig ▸ hne :
      pot.2 ≠ [])
    obtain ⟨_, hi0s, hi0u, hi0f⟩ := payoutEligible_mem t _ i0 (helig ▸ hi0)
    have hw : (pickWinners ranks pot.2).2 ≠ [] := by
      apply pickWinners_ne_nil ranks pot.2 i0 hi0
      exact hrk i0 (by omega) hi0u hi0f
    have hb : ∀ i ∈ (pickWinners ranks pot.2).2, i < seats.length := by
      intro i hiw
      have hie : i ∈ pot.2 := (pickWinners_sublist ranks pot.2).mem hiw
      obtain ⟨_, his, _, _⟩ := payoutEligible_mem t _ i (helig ▸ hie)
      omega
    simp only [List.foldl_cons, List.map_cons, List.sum_cons]
    have hstep := distributeLayer_sum ranks seats pot hamt (helig ▸ hne) hw hb
    have hlen2 : (distributeLayer ranks seats pot).length = t.seats.length := by
      rw [distributeLayer_length, hlen]
    rw [ih _ hlen2 (fun p hp => hpots p (by simp [hp])), hstep]
    omega

/-- A successful payout conserves chips: the stacks absorb exactly the sum
of the whole-hand contributions (the pot, under the pot invariant). -/
theorem showdown_payout_conserves (t t' : Table)
    (hs : t.showdown_and_payout = some t')
    (hms : t.seats.length = t.max_seats)
    (hne : t.payoutEligible t.total_contrib.length ≠ [])
    (hpot : t.state.pot = t.total_contrib.sum) :
    stackSum t'.seats = stackSum t.seats + t.state.pot := by
  unfold Table.showdown_and_payout at hs
  cases hr : t.showdownRanks with
  | none => rw [hr] at hs; cases hs
  | some ranks =>
    rw [hr] at hs
    have hrk := showdownRanks_spec t ranks hr
    cases hs
    dsimp only
    rw [foldl_distribute_sum ranks t hms hrk hne t.sidePots t.seats rfl]
    . rw [hpot]
      congr 1
      unfold Table.sidePots
      exact sidePotsAux_amounts t _ _ (List.countP_le_length _)
    . intro p hp
      exact ⟨sidePotsAux_amount_pos t _ _ p hp, sidePotsAux_eligible t _ _ p hp⟩

/-- The eligibility list is strictly ascending in seat index. -/
theorem payoutEligible_pairwise (t : Table) (len : Nat) :
    List.Pairwise (· < ·) (t.payoutEligible len) := by
  unfold Table.payoutEligible
  exact (List.pairwise_lt_range len).filter _

/-- The winners of a layer over the eligibility list are strictly ascending
in seat index, so the remainder chips go to the lowest-indexed winners. -/
theorem pickWinners_eligible_pairwise (t : Table)
    (ranks : List (Option HandRank)) (len : Nat) :
    List.Pairwise (· < ·) (pickWinners ranks (t.payoutEligible len)).2 :=
  (payoutEligible_pairwise t len).sublist (pickWinners_sublist ranks _)

/-- C4 (counterexample): in the three-way side-pot scenario the second
(side) layer's eligible set as computed is {A, B, C} = `[0, 1, 2]` — the
code tests the whole-hand contribution `total_contrib[i] > 0` when
collecting a layer's eligible seats, for every layer alike — not exactly
{B, C} = `[1, 2]` as the claim states. -/
theorem side_pot_eligible_not_BC :
    sidePotTable.sidePots = [(150, [0, 1, 2]), (100, [0, 1, 2])] ∧
    (sidePotTable.sidePots.getD 1 (0, [])).2 ≠ [1, 2] := by
  exact ⟨by decide, by decide⟩

set_option maxRecDepth 8192 in
/-- C4 (amended): `showdown_and_payout` on the scenario builds a main layer
of 150 and a side layer of 100, each with computed eligible set {A, B, C};
C wins both, and the final stacks are A 0, B 0, C 250 (C +250). -/
theorem side_pot_scenario_payout :
    sidePotTable.sidePots = [(150, [0, 1, 2]), (100, [0, 1, 2])] ∧
    (sidePotTable.showdown_and_payout).map (fun t2 => t2.seats.map (fun s => s.stack))
      = some [0, 0, 250, 0, 0, 0] := by
  exact ⟨by decide, by decide⟩

set_option maxRecDepth 16384 in
/-- C5 (counterexample): the engine crate's `resolve_showdown` does not
distribute integer-division remainders at all: with pot 3 and two tied
winners (royal flush on board, third player folded), each winner receives
`3 / 2 = 1` chip and the remaining chip vanishes — 2 ≠ 3 chips
distributed. -/
theorem resolve_showdown_loses_remainder :
    tieGame.state.pot = 3 ∧
    (tieGame.state.players.map (fun p => p.chips)).sum = 0 ∧
    (tieGame.resolve_showdown).state.players.map (fun p => p.chips) = [1, 1, 0] ∧
    ((tieGame.resolve_showdown).state.players.map (fun p => p.chips)).sum ≠
      tieGame.state.pot := by
  refine ⟨by decide, by decide, by decide, by decide⟩

/-- C5 (amended): in the WS engine's `showdown_and_payout` the claim holds:
every layer's eligibility list and winner list are strictly ascending in
seat index (so the remainder chips, one per winner from the front of the
winner list, go to the lowest seat indices), and — provided at least one
seat is eligible — the stacks absorb exactly Σ total_contrib, which equals
the pot under the pot invariant. (The engine crate's `resolve_showdown`
violates the claim, per the counterexample.) -/
theorem payout_split_and_conservation :
    (∀ (t t' : Table), t.showdown_and_payout = some t' →
      t.seats.length = t.max_seats →
      t.payoutEligible t.total_contrib.length ≠ [] →
      t.state.pot = t.total_contrib.sum →
      stackSum t'.seats = stackSum t.seats + t.state.pot) ∧
    (∀ (t : Table) (len : Nat), List.Pairwise (· < ·) (t.payoutEligible len)) ∧
    (∀ (t : Table) (ranks : List (Option HandRank)) (len : Nat),
      List.Pairwise (· < ·) (pickWinners ranks (t.payoutEligible len)).2) :=
  ⟨showdown_payout_conserves, payoutEligible_pairwise,
   pickWinners_eligible_pairwise⟩

set_option maxRecDepth 8192 in
/-- C5 witness: conservation applied at the concrete three-way side-pot
table: stacks go from 0 to a total of 250 = pot. -/
theorem payout_split_and_conservation_witness :
    stackSum sidePotPayoutTable.seats =
      stackSum sidePotTable.seats + sidePotTable.state.pot :=
  payout_split_and_conservation.1 sidePotTable sidePotPayoutTable
    (by decide) (by decide) (by decide) (by decide)

/-- C6 (counterexample): `TexasHoldem::handle_action` is not transactional:
a Raise when no bet is outstanding fails with InvalidAction, yet both
players' `has_acted` flags (true beforehand) have been cleared by the early
`reset_has_acted`, so the failed call changed the game state. -/
theorem handle_action_mutates_on_error :
    (raiseNoBetGame.handle_action (EPlayerAction.Raise 10)).2 =
      some GameError.InvalidAction ∧
    raiseNoBetGame.state.players.map (fun p => p.has_acted) = [true, true] ∧
    ((raiseNoBetGame.handle_action (EPlayerAction.Raise 10)).1).state.players.map
      (fun p => p.has_acted) = [false, false] ∧
    (raiseNoBetGame.handle_action (EPlayerAction.Raise 10)).1 ≠ raiseNoBetGame := by
  refine ⟨by decide, by decide, by decide, by decide⟩

/-- C6 (amended): the WS engine's `Table::apply_action_by_user` is
transactional: whenever it reports an error the returned table is exactly
the input table (in every action branch all validation precedes every
mutation). The engine crate's `handle_action` violates the claim, per the
counterexample. -/
theorem apply_action_transactional (t : Table) (u act : String)
    (amt : Option Nat) (e : String) :
    (t.apply_action_by_user u act amt).1 = Except.error e →
    (t.apply_action_by_user u act amt).2 = t := by
  unfold Table.apply_action_by_user
  split
  . intro _; rfl
  . split
    . intro _; rfl
    . split
      . intro _; rfl
      . dsimp only
        split
        . intro _; rfl
        . split
          . intro h; simp at h
          . split
            . intro h; simp at h
            . intro h; simp at h

/-- C6 witness: an action outside a hand errors and leaves the concrete
table unchanged. -/
theorem apply_action_transactional_witness :
    (sidePotTable.apply_action_by_user "a" "check" none).2 = sidePotTable :=
  apply_action_transactional sidePotTable "a" "check" none "hand not active"
    (by rfl)

/-- C2 (failing behaviour): in a reachable room (config: blinds 5/10,
starting stack 1000, one rebuy) u1 and u2 join — the second join opens a
hand, u2 posts the small blind (stack 995) — and then u2's `rebuy` during
the open Preflop street tops the stack back up to 1000 and decrements
`rebuys_left`, because the handler's "between hands" guard reads the
actor-local `state.street`, which no handler ever writes, instead of the
table's street. -/
theorem rebuy_mid_hand_tops_up :
    Reachable trace2 ∧
    trace2.table.state.street = some Street.Preflop ∧
    (trace2.table.seatD 1).user_id = some "u2" ∧
    (trace2.table.seatD 1).stack = 995 ∧
    lookupMap trace2.rebuys_left "u2" = some 1 ∧
    trace2.step (ActorMsg.Rebuy "t" "u2") 300 = some trace3 ∧
    (trace3.table.seatD 1).stack = 1000 ∧
    lookupMap trace3.rebuys_left "u2" = some 0 ∧
    trace3.table.state.street = some Street.Preflop := by
  refine ⟨?_, by rfl, by rfl, by rfl, by rfl, by rfl, by rfl, by rfl, by rfl⟩
  have h0 : Reachable trace0 :=
    Reachable.init "t" "host" cfgRebuy 0 Deck.new (List.Perm.refl _)
  have h1 : Reachable trace1 :=
    Reachable.step trace0 trace1 (ActorMsg.JoinRoom "t" "u1") 100 h0 (by rfl)
  exact Reachable.step trace1 trace2 (ActorMsg.JoinRoom "t" "u2") 200 h1 (by rfl)

/-- C1 (counterexample): in the same reachable room, after u1 joins (not
Ready, no countdown) the second `join_room` by u2 immediately starts a hand
(street none → Preflop) even though no occupied seat's user is Ready and
`countdown_end` was never set. -/
theorem join_starts_hand_unready :
    Reachable trace1 ∧
    trace1.table.state.street = none ∧
    lookupMap trace1.ready_status "u1" = some false ∧
    trace1.countdown_end = none ∧
    trace1.step (ActorMsg.JoinRoom "t" "u2") 200 = some trace2 ∧
    trace2.table.state.street = some Street.Preflop := by
  refine ⟨?_, by rfl, by rfl, by rfl, by rfl, by rfl⟩
  have h0 : Reachable trace0 :=
    Reachable.init "t" "host" cfgRebuy 0 Deck.new (List.Perm.refl _)
  exact Reachable.step trace0 trace1 (ActorMsg.JoinRoom "t" "u1") 100 h0 (by rfl)

/-- C3 (counterexample): in the reachable three-player Preflop state trace4
(u1 to act facing a 10-chip call, deadline 8400), the tick at time 9000
auto-acts for u1 — check fails, so u1 is folded — and the action returns
`Continue` (the betting round is still open: u2 has not matched the big
blind); yet the tick advances the street from Preflop to Flop anyway. -/
theorem tick_advances_street_on_continue :
    Reachable trace4 ∧
    trace4.table.state.street = some Street.Preflop ∧
    trace4.action_deadline = some 8400 ∧
    (trace4.table.seatD trace4.table.to_act_idx).user_id = some "u1" ∧
    (trace4.table.apply_action_by_user "u1" "check" none).1 =
      Except.error "cannot check" ∧
    (trace4.table.apply_action_by_user "u1" "fold" none).1 =
      Except.ok ApplyOutcome.Continue ∧
    trace4.step ActorMsg.Tick 9000 = some trace5 ∧
    trace5.table.state.street = some Street.Flop := by
  refine ⟨?_, by rfl, by rfl, by rfl, by rfl, by rfl, by rfl, by rfl⟩
  have h0 : Reachable trace0 :=
    Reachable.init "t" "host" cfgRebuy 0 Deck.new (List.Perm.refl _)
  have h1 : Reachable trace1 :=
    Reachable.step trace0 trace1 (ActorMsg.JoinRoom "t" "u1") 100 h0 (by rfl)
  have h2 : Reachable trace2 :=
    Reachable.step trace1 trace2 (ActorMsg.JoinRoom "t" "u2") 200 h1 (by rfl)
  have h3 : Reachable trace3 :=
    Reachable.step trace2 trace3 (ActorMsg.Rebuy "t" "u2") 300 h2 (by rfl)
  exact Reachable.step trace3 trace4 (ActorMsg.JoinRoom "t" "u3") 400 h3 (by rfl)

/-- C3 (amended): once a street is in progress (not Showdown), the room is
still alive and the action deadline has expired, `Tick` auto-acts for the
seated user at `to_act_idx` (check if legal, else fold) and then advances
the street unconditionally via `next_street`; the resulting actor carries a
fresh action deadline `now + action_time_ms`, and whenever the post-advance
street is not Showdown its table is exactly the auto-acted-then-advanced
table — the actor does not wait for the betting round to close. -/
theorem tick_auto_action_behaviour (a : TableActor) (now : Nat) (uid : String)
    (st : Street)
    (hst : a.table.state.street = some st) (hsd : st ≠ Street.Showdown)
    (hroom : ∀ e, a.room_end_at = some e → now < e)
    (hdl : ∀ dl, a.action_deadline = some dl → dl ≤ now)
    (huid : (a.table.seatD a.table.to_act_idx).user_id = some uid) :
    a.step ActorMsg.Tick now = a.tickAutoAct uid now ∧
    (∀ a', a.step ActorMsg.Tick now = some a' →
      a'.action_deadline = some (now + a.config.action_time_ms) ∧
      (((a.table.autoActTable uid).next_street a.deck).1.state.street ≠ some Street.Showdown →
        a'.table = ((a.table.autoActTable uid).next_street a.deck).1)) := by
  have hcond : (a.table.state.street.isSome ∧ a.table.state.street ≠ some Street.Showdown) := by
    rw [hst]
    exact ⟨rfl, by simp [hsd]⟩
  have hroomb : (match a.room_end_at with
      | some e => decide (now ≥ e)
      | none => false) = false := by
    cases hre : a.room_end_at with
    | none => rfl
    | some e => simp; exact hroom e hre
  have hdlb : (match a.action_deadline with
      | some dl => decide (now < dl)
      | none => false) = false := by
    cases hd : a.action_deadline with
    | none => rfl
    | some dl => simp; exact hdl dl hd
  have hmain : a.step ActorMsg.Tick now = a.tickAutoAct uid now := by
    show a.handleTick now = _
    unfold TableActor.handleTick
    rw [if_pos hcond, if_neg (by rw [hroomb]; simp), if_neg (by rw [hdlb]; simp), huid]
  refine ⟨hmain, ?_⟩
  intro a' ha'
  rw [hmain] at ha'
  unfold TableActor.tickAutoAct at ha'
  dsimp only at ha'
  split at ha'
  . next hshow =>
    constructor
    . cases hpay : ((a.table.autoActTable uid).next_street a.deck).1.showdown_and_payout with
      | none => rw [hpay] at ha'; simp at ha'
      | some t2 =>
        rw [hpay] at ha'
        simp only [Option.map] at ha'
        cases ha'
        rfl
    . intro hne
      exact absurd hshow hne
  . cases ha'
    exact ⟨rfl, fun _ => rfl⟩

/-- C3 witness: the amended tick behaviour applied at the concrete
reachable state trace4 at time 9000 (street Preflop, no room end, deadline
8400 expired, u1 seated at `to_act_idx`). -/
theorem tick_auto_action_behaviour_witness :
    trace4.table.state.street = some Street.Preflop ∧
    trace4.action_deadline = some 8400 ∧
    (trace4.table.seatD trace4.table.to_act_idx).user_id = some "u1" ∧
    (trace4.step ActorMsg.Tick 9000 = trace4.tickAutoAct "u1" 9000 ∧
     ∀ a', trace4.step ActorMsg.Tick 9000 = some a' →
       a'.action_deadline = some (9000 + trace4.config.action_time_ms) ∧
       (((trace4.table.autoActTable "u1").next_street trace4.deck).1.state.street ≠
           some Street.Showdown →
         a'.table = ((trace4.table.autoActTable "u1").next_street trace4.deck).1)) :=
  ⟨by rfl, by rfl, by rfl,
   tick_auto_action_behaviour trace4 9000 "u1" Street.Preflop (by rfl) (by decide)
     (by intro e he
         rw [show trace4.room_end_at = (none : Option Nat) from rfl] at he
         cases he)
     (by intro dl h
         rw [show trace4.action_deadline = some 8400 from rfl] at h
         injection h with h2
         omega)
     (by rfl)⟩

/-- `Table::sit` never touches the table-level state. -/
lemma sit_state (t : Table) (u : String) (st : Nat) : (t.sit u st).1.state = t.state := by
  unfold Table.sit
  split <;> rfl

/-- With no open hand, `apply_action_by_user` errors out before touching the
table. -/
lemma apply_action_of_street_none (t : Table) (u act : String) (amt : Option Nat)
    (h : t.state.street = none) :
    (t.apply_action_by_user u act amt).2 = t ∧
    ∀ o, (t.apply_action_by_user u act amt).1 ≠ Except.ok o := by
  unfold Table.apply_action_by_user
  split
  . exact ⟨rfl, fun o ho => by cases ho⟩
  . split
    . exact ⟨rfl, fun o ho => by cases ho⟩
    . rw [if_pos (Or.inr h)]
      exact ⟨rfl, fun o ho => by cases ho⟩

/-- The `LeaveRoom` handler only edits seats and bookkeeping maps. -/
lemma handleLeave_table_state (a : TableActor) (cid : String) :
    (a.handleLeave cid).table.state = a.table.state := by
  unfold TableActor.handleLeave
  split
  . rfl
  . dsimp only
    split <;> rfl

/-- The `Rebuy` handler only edits seats and the rebuy map. -/
lemma handleRebuy_table_state (a : TableActor) (cid : String) :
    (a.handleRebuy cid).table.state = a.table.state := by
  unfold TableActor.handleRebuy
  split
  . dsimp only
    split
    . split
      . split <;> rfl
      . rfl
    . rfl
  . rfl

/-- If a join made the street non-`none`, the room was alive and the
post-sit active-player count was at least two. -/
lemma handleJoinCore_street (a : TableActor) (cid : String) (stack now : Nat)
    (h0 : a.table.state.street = none)
    (hp : (a.handleJoinCore cid stack now).table.state.street ≠ none) :
    a.roomAlive now = true ∧ 2 ≤ (a.table.sit cid stack).1.active_player_count := by
  unfold TableActor.handleJoinCore at hp
  dsimp only at hp
  split at hp
  . next hcond =>
    split at hp
    . next hal =>
      exact ⟨hal, hcond.1⟩
    . next =>
      exfalso
      refine hp ?_
      show (a.table.sit cid stack).1.state.street = none
      rw [sit_state]
      exact h0
  . next =>
    exfalso
    refine hp ?_
    show (a.table.sit cid stack).1.state.street = none
    rw [sit_state]
    exact h0

/-- C1 (amended): from a state with no open hand, a hand starts (the table
street becomes non-`none`) only through a `Join`/`JoinRoom` that finds the
room alive and brings the active-player count to at least two — with no
readiness or countdown requirement at all — or through a `Tick` whose
countdown branch does require every seated user ready, the room alive, at
least two active players, and a previously set countdown deadline that has
elapsed. No other message starts a hand. -/
theorem hand_start_conditions (a a' : TableActor) (msg : ActorMsg) (now : Nat)
    (h0 : a.table.state.street = none)
    (hs : a.step msg now = some a')
    (hp : a'.table.state.street ≠ none) :
    (∃ tid buy cid, msg = ActorMsg.Join tid buy cid ∧ a.roomAlive now = true ∧
      2 ≤ (a.table.sit cid
        (if a.config.starting_stack > 0 then a.config.starting_stack else buy)).1.active_player_count) ∨
    (∃ tid cid, msg = ActorMsg.JoinRoom tid cid ∧ a.roomAlive now = true ∧
      2 ≤ (a.table.sit cid a.config.starting_stack).1.active_player_count) ∨
    (msg = ActorMsg.Tick ∧ a.allSeatedReady = true ∧ a.roomAlive now = true ∧
      2 ≤ a.table.active_player_count ∧
      ∃ e, a.countdown_end = some e ∧ e ≤ now) := by
  cases msg with
  | Subscribe => cases hs; exact absurd h0 hp
  | CreateRoom => cases hs; exact absurd h0 hp
  | Ready tid cid r =>
    cases hs
    exact absurd h0 hp
  | LeaveRoom tid cid =>
    cases hs
    exact absurd ((handleLeave_table_state a cid).symm ▸ h0) hp
  | Rebuy tid cid =>
    cases hs
    exact absurd ((handleRebuy_table_state a cid).symm ▸ h0) hp
  | Action tid hid act amt cid =>
    exfalso
    obtain ⟨h2, h1⟩ := apply_action_of_street_none a.table cid act amt h0
    have hs' : a.handleAction cid act amt now = some a' := hs
    unfold TableActor.handleAction at hs'
    dsimp only at hs'
    cases hr : (a.table.apply_action_by_user cid act amt).1 with
    | error e =>
      rw [hr] at hs'
      dsimp only at hs'
      cases hs'
      refine hp ?_
      show (a.table.apply_action_by_user cid act amt).2.state.street = none
      rw [h2]
      exact h0
    | ok o =>
      exact h1 o hr
  | Join tid buy cid =>
    cases hs
    obtain ⟨halive, hc2⟩ := handleJoinCore_street a cid _ now h0 hp
    exact Or.inl ⟨tid, buy, cid, rfl, halive, hc2⟩
  | JoinRoom tid cid =>
    cases hs
    obtain ⟨halive, hc2⟩ := handleJoinCore_street a cid _ now h0 hp
    exact Or.inr (Or.inl ⟨tid, cid, rfl, halive, hc2⟩)
  | Tick =>
    have hs' : a.handleTick now = some a' := hs
    unfold TableActor.handleTick at hs'
    split at hs'
    . next hcond =>
      exfalso
      rw [h0] at hcond
      simp at hcond
    . next =>
      split at hs'
      . next hcond2 =>
        cases hs'
        unfold TableActor.tickCountdown at hp
        dsimp only at hp
        split at hp
        . next hrr =>
          split at hp
          . next hge =>
            refine Or.inr (Or.inr ⟨rfl, hrr.1, hrr.2, hcond2.1, ?_⟩)
            cases hce : a.countdown_end with
            | none =>
              exfalso
              rw [hce] at hge
              simp only [Option.getD_none] at hge
              omega
            | some e =>
              rw [hce] at hge
              simp only [Option.getD_some] at hge
              exact ⟨e, rfl, hge⟩
          . next =>
            exfalso
            exact hp h0
        . next =>
          exfalso
          exact hp h0
      . next =>
        cases hs'
        exact absurd h0 hp


/-- C1 witness: the amended start conditions applied at the concrete
reachable room trace1 receiving u2's `JoinRoom` at time 200 (the hand
starts with every `ready_status` entry false and no countdown set). -/
theorem hand_start_conditions_witness :
    trace1.table.state.street = none ∧
    trace1.step (ActorMsg.JoinRoom "t" "u2") 200 = some trace2 ∧
    trace2.table.state.street ≠ none ∧
    ((∃ tid buy cid, ActorMsg.JoinRoom "t" "u2" = ActorMsg.Join tid buy cid ∧
        trace1.roomAlive 200 = true ∧
        2 ≤ (trace1.table.sit cid
          (if trace1.config.starting_stack > 0 then trace1.config.starting_stack
           else buy)).1.active_player_count) ∨
     (∃ tid cid, ActorMsg.JoinRoom "t" "u2" = ActorMsg.JoinRoom tid cid ∧
        trace1.roomAlive 200 = true ∧
        2 ≤ (trace1.table.sit cid trace1.config.starting_stack).1.active_player_count) ∨
     (ActorMsg.JoinRoom "t" "u2" = ActorMsg.Tick ∧ trace1.allSeatedReady = true ∧
        trace1.roomAlive 200 = true ∧ 2 ≤ trace1.table.active_player_count ∧
        ∃ e, trace1.countdown_end = some e ∧ e ≤ 200)) := by
  have hp : trace2.table.state.street ≠ none := by
    intro hn
    rw [show trace2.table.state.street = some Street.Preflop from rfl] at hn
    cases hn
  exact ⟨by rfl, by rfl, hp,
    hand_start_conditions trace1 trace2 (ActorMsg.JoinRoom "t" "u2") 200
      (by rfl) (by rfl) hp⟩
